import Mathlib

/-!
Keystroke / pause / gaze logger (`src/main.js`).

A shallow embedding of the event-interpretation code of `src/main.js`:
`computeDiff`, the pause monitor, the dwell segmenter (`logGazeState`,
`stopGaze`) and the public `startLogging` / `stopLogging` pair.

Modelling conventions.
* A JavaScript string is the list of its code units; `s[k]` is `s[k]?`
  (`undefined` is `none`) and `s.length` is `List.length`.
* Clock readings (`now()`) are integers (milliseconds); each call of `now()`
  in the source is one explicit argument of the embedded function.
* A field that can hold `null` is an `Option`; arithmetic on such a field
  goes through `toNumber` (`null` converts to `0`).
* The mutable `state` object (and the closure variable `pauseChecker`) is the
  record `State`, passed explicitly.
* Claims about reachable states are stated over `Sys.run`: the logger driven by
  a list of events, where an event reaches its handler only while the code has
  that handler registered (listeners) or armed (intervals). A synchronous
  handler runs to its end before the next event; the gaze callback is `async`
  and is two events, its start and the part after its `await`.
-/

namespace ETL

/-! ## Config -/

/-- Constant `PAUSE_THRESHOLD_MS` (main.js line 3). -/
def PAUSE_THRESHOLD_MS : Int := 2000

/-- Constant `GAZE_SAMPLE_EVERY_MS` (main.js line 4). -/
def GAZE_SAMPLE_EVERY_MS : Int := 100

/-- Constant `GAZE_MIN_DWELL_MS` (main.js line 5). -/
def GAZE_MIN_DWELL_MS : Int := 120

/-! ## computeDiff -/

/-- A JavaScript string, as the list of its code units. Nothing below uses more
of a code unit than the decidable equality `===` compares with. -/
abbrev JSString := List Char

/-- The method `String.prototype.slice(b, e)` for arguments `0 ≤ b`, `0 ≤ e`
(the only ones `computeDiff` passes): the code units at positions `b ≤ k < e`,
clamped to the string, empty when `e ≤ b`. -/
def slice (s : JSString) (b e : Nat) : JSString := (s.take e).drop b

/-- The object returned by `computeDiff` (main.js lines 26-40), one constructor
per value of its `type` field, with the fields in source order. -/
inductive EditOp where
  /-- Case `type: "insert"` with fields `start`, `end`, `nChars`, `text`. -/
  | insert (start stop nChars : Nat) (text : JSString)
  /-- Case `type: "delete"` with fields `start`, `end`, `nChars`, `text`. -/
  | delete (start stop nChars : Nat) (text : JSString)
  /-- Case `type: "replace"` with fields `start`, `end`, `nCharsDel`, `nCharsIns`,
  `delText`, `insText`. -/
  | replace (start stop nCharsDel nCharsIns : Nat) (delText insText : JSString)
  deriving DecidableEq, Repr

/-- The first loop of `computeDiff` (line 15):
`while (i < minLen && oldText[i] === newText[i]) i++`, started at `i`.
Each iteration increases `i` and the guard needs `i < minLen`, so `minLen`
iterations always suffice; `fuel` counts the iterations still allowed
(`prefixLoop_exit` shows the loop leaves through its guard). -/
def prefixLoop (oldText newText : JSString) (minLen : Nat) : Nat → Nat → Nat
  | 0, i => i
  | fuel + 1, i =>
    if i < minLen ∧ oldText[i]? = newText[i]? then
      prefixLoop oldText newText minLen fuel (i + 1)
    else i

/-- The second loop of `computeDiff` (lines 18-21):
`while (j < minLen - i && oldText[oldText.length-1-j] === newText[newText.length-1-j]) j++`,
started at `j`. The guard `j < minLen - i` keeps both indices non-negative, so
natural-number subtraction agrees with the source on every index that is
read. `fuel` as in `prefixLoop`. -/
def suffixLoop (oldText newText : JSString) (minLen i : Nat) : Nat → Nat → Nat
  | 0, j => j
  | fuel + 1, j =>
    if j < minLen - i ∧
        oldText[oldText.length - 1 - j]? = newText[newText.length - 1 - j]? then
      suffixLoop oldText newText minLen i fuel (j + 1)
    else j

/-- The value of `i` after the first loop of `computeDiff`. -/
def diffPrefix (oldText newText : JSString) : Nat :=
  prefixLoop oldText newText (min oldText.length newText.length)
    (min oldText.length newText.length) 0

/-- The value of `j` after the second loop of `computeDiff`. -/
def diffSuffix (oldText newText : JSString) : Nat :=
  suffixLoop oldText newText (min oldText.length newText.length)
    (diffPrefix oldText newText) (min oldText.length newText.length) 0

/-- The local `oldMid` of `computeDiff` (line 23). -/
def oldMid (oldText newText : JSString) : JSString :=
  slice oldText (diffPrefix oldText newText) (oldText.length - diffSuffix oldText newText)

/-- The local `newMid` of `computeDiff` (line 24). -/
def newMid (oldText newText : JSString) : JSString :=
  slice newText (diffPrefix oldText newText) (newText.length - diffSuffix oldText newText)

/-- Function `computeDiff(oldText, newText)` (main.js lines 11-42); `null` is
`none`. -/
def computeDiff (oldText newText : JSString) : Option EditOp :=
  if oldText = newText then none
  else
    let i := diffPrefix oldText newText
    let om := oldMid oldText newText
    let nm := newMid oldText newText
    if nm.length > 0 ∧ om.length = 0 then
      some (EditOp.insert i (i + nm.length) nm.length nm)
    else if om.length > 0 ∧ nm.length = 0 then
      some (EditOp.delete i (i + om.length) om.length om)
    else
      some (EditOp.replace i (i + om.length) om.length nm.length om nm)

/-- Field `type` of the object returned by `computeDiff`. -/
def EditOp.type : EditOp → String
  | .insert .. => "insert"
  | .delete .. => "delete"
  | .replace .. => "replace"

/-- Field `start` of the object returned by `computeDiff`. -/
def EditOp.start : EditOp → Nat
  | .insert start _ _ _ => start
  | .delete start _ _ _ => start
  | .replace start _ _ _ _ _ => start

/-- Field `end` of the object returned by `computeDiff`. -/
def EditOp.end_ : EditOp → Nat
  | .insert _ stop _ _ => stop
  | .delete _ stop _ _ => stop
  | .replace _ stop _ _ _ _ => stop

/-- The text an op takes out of the old string: `text` of a delete, `delText`
of a replace, nothing for an insert. -/
def EditOp.removed : EditOp → JSString
  | .insert .. => []
  | .delete _ _ _ text => text
  | .replace _ _ _ _ delText _ => delText

/-- The text an op puts into the new string: `text` of an insert, `insText`
of a replace, nothing for a delete. -/
def EditOp.inserted : EditOp → JSString
  | .insert _ _ _ text => text
  | .delete .. => []
  | .replace _ _ _ _ _ insText => insText

/-- A number `n` with `n ≤ |a|`, `n ≤ |b|` such that the first `n` code units
of `a` and `b` coincide. -/
def IsCommonPrefixLen (a b : JSString) (n : Nat) : Prop :=
  n ≤ a.length ∧ n ≤ b.length ∧ a.take n = b.take n

/-! ## The logger state -/

/-- A reference to a DOM element. -/
abbrev ElemRef := Nat

/-- A handle returned by `setInterval`: a positive number, so a field holding
one is truthy and a field holding `null` is not. -/
abbrev TimerId := Nat

/-- The properties of the `#writer` element that the logger reads. -/
structure Element where
  value : JSString
  selectionStart : Nat
  selectionEnd : Nat
  deriving DecidableEq, Repr

/-- A record pushed on `state.keystrokes` (lines 79-86). -/
structure Keystroke where
  time : Int
  key : String
  code : String
  selectionStart : Nat
  selectionEnd : Nat
  textLen : Nat
  deriving DecidableEq, Repr

/-- A record pushed on `state.textchanges` (lines 97-101): `time`, the fields
of the diff spread in, `cursorAfter`. -/
structure TextChange where
  time : Int
  diff : EditOp
  cursorAfter : Nat
  deriving DecidableEq, Repr

/-- A record pushed on `state.pauses` (lines 108-113 and 258-263).
`startTime` copies `state.pauseStart`, which can be `null`;
`cursorIndexAtPause` is `null` when `stopLogging` has no writer. -/
structure Pause where
  startTime : Option Int
  endTime : Int
  duration : Int
  cursorIndexAtPause : Option Nat
  deriving DecidableEq, Repr

/-- A record pushed on `state.gaze` (line 194). -/
structure GazeSample where
  time : Int
  x : Int
  y : Int
  side : String
  deriving DecidableEq, Repr

/-- A record pushed on `state.gaze_states` (lines 169-174 and 212-217). -/
structure GazeState where
  side : String
  startTime : Int
  endTime : Int
  duration : Int
  deriving DecidableEq, Repr

/-- The object `state` (lines 46-64), with the closure variable `pauseChecker`
(line 122) as a last field. -/
structure State where
  started : Bool
  startTime : Option Int
  lastInputTime : Option Int
  pauseActive : Bool
  pauseStart : Option Int
  textPrev : JSString
  gazeTimer : Option TimerId
  lastGazeSide : String
  lastGazeTime : Option Int
  writer : Option ElemRef
  graph : Option ElemRef
  keystrokes : List Keystroke
  textchanges : List TextChange
  pauses : List Pause
  gaze : List GazeSample
  gaze_states : List GazeState
  pauseChecker : Option TimerId
  deriving DecidableEq, Repr

/-- The initial value of `state` (lines 46-64) and of `pauseChecker`. -/
def State.init : State where
  started := false
  startTime := none
  lastInputTime := none
  pauseActive := false
  pauseStart := none
  textPrev := []
  gazeTimer := none
  lastGazeSide := "unknown"
  lastGazeTime := none
  writer := none
  graph := none
  keystrokes := []
  textchanges := []
  pauses := []
  gaze := []
  gaze_states := []
  pauseChecker := none

/-- The conversion JavaScript applies to an operand of `-`: `null` is `0`. -/
def toNumber : Option Int → Int
  | none => 0
  | some n => n

/-! ## Keystroke listeners -/

/-- Function `onKeydown(e)` (lines 75-87) at clock reading `t`, where `key` and
`code` are the fields of `e` and `el` holds the properties of the element
`state.writer` (read only when `state.writer` is set). -/
def onKeydown (key code : String) (t : Int) (el : Element) (s : State) : State :=
  match s.writer with
  | none => s
  | some _ =>
    { s with keystrokes := s.keystrokes ++
        [{ time := t, key := key, code := code,
           selectionStart := el.selectionStart, selectionEnd := el.selectionEnd,
           textLen := el.value.length }] }

/-- Function `onInput(e)` (lines 89-119) at clock reading `t`, where `el` holds
the properties of the element `state.writer`. -/
def onInput (t : Int) (el : Element) (s : State) : State :=
  match s.writer with
  | none => s
  | some _ =>
    let current := el.value
    let s1 : State :=
      match computeDiff s.textPrev current with
      | some diff =>
        { s with textchanges := s.textchanges ++
            [{ time := t, diff := diff, cursorAfter := el.selectionStart }] }
      | none => s
    let s2 : State :=
      if s1.pauseActive then
        { s1 with
          pauses := s1.pauses ++
            [{ startTime := s1.pauseStart, endTime := t,
               duration := t - toNumber s1.pauseStart,
               cursorIndexAtPause := some el.selectionStart }]
          pauseActive := false
          pauseStart := none }
      else s1
    { s2 with lastInputTime := some t, textPrev := current }

/-! ## Pause monitor -/

/-- The callback given to `setInterval` in `startPauseChecker` (lines 125-134),
run at clock reading `t`. -/
def pauseTick (t : Int) (s : State) : State :=
  if !s.started then s
  else
    match s.lastInputTime with
    | none => s
    | some l =>
      let gap := t - l
      if !s.pauseActive && decide (gap ≥ PAUSE_THRESHOLD_MS) then
        { s with pauseActive := true, pauseStart := s.lastInputTime }
      else s

/-- Function `stopPauseChecker()` (lines 136-141). -/
def stopPauseChecker (s : State) : State :=
  match s.pauseChecker with
  | some _ => { s with pauseChecker := none }
  | none => s

/-- Function `startPauseChecker()` (lines 123-135); `timer` is the handle that
`setInterval` returns. -/
def startPauseChecker (timer : TimerId) (s : State) : State :=
  { stopPauseChecker s with pauseChecker := some timer }

/-! ## Gaze -/

/-- The result of `getBoundingClientRect()`. -/
structure Rect where
  left : Int
  right : Int
  top : Int
  bottom : Int
  deriving DecidableEq, Repr

/-- Function `pointInRect(x, y, rect)` (lines 144-146). -/
def pointInRect (x y : Int) (rect : Rect) : Bool :=
  decide (x ≥ rect.left) && decide (x ≤ rect.right) &&
    decide (y ≥ rect.top) && decide (y ≤ rect.bottom)

/-- Function `getGazeSide(x, y)` (lines 148-161). `wRect` and `gRect` are the
bounding rectangles of the elements `state.writer` and `state.graph` (used
only when the element is set); the test `x < window.innerWidth / 2` is written
`2 * x < innerWidth`. -/
def getGazeSide (wRect gRect : Rect) (innerWidth : Int) (x y : Int) (s : State) : String :=
  let w : Option Rect := s.writer.map (fun _ => wRect)
  let g : Option Rect := s.graph.map (fun _ => gRect)
  if g.isSome && pointInRect x y gRect then "left"
  else if w.isSome && pointInRect x y wRect then "right"
  else if 2 * x < innerWidth then "left"
  else if 2 * x ≥ innerWidth then "right"
  else "unknown"

/-- Function `logGazeState(side, t)` (lines 163-180). -/
def logGazeState (side : String) (t : Int) (s : State) : State :=
  if s.lastGazeSide ≠ side then
    let s1 : State :=
      match s.lastGazeTime with
      | some last =>
        if s.lastGazeSide ≠ "unknown" then
          let dur := t - last
          if dur ≥ GAZE_MIN_DWELL_MS then
            { s with gaze_states := s.gaze_states ++
                [{ side := s.lastGazeSide, startTime := last, endTime := t,
                   duration := dur }] }
          else s
        else s
      | none => s
    { s1 with lastGazeSide := side, lastGazeTime := some t }
  else s

/-- Function `stopGaze()` (lines 202-222); `t` is the clock reading of
line 208. -/
def stopGaze (t : Int) (s : State) : State :=
  let s0 : State :=
    match s.gazeTimer with
    | some _ => { s with gazeTimer := none }
    | none => s
  let s1 : State :=
    match s0.lastGazeTime with
    | some last =>
      if s0.lastGazeSide ≠ "unknown" then
        let dur := t - last
        if dur ≥ GAZE_MIN_DWELL_MS then
          { s0 with gaze_states := s0.gaze_states ++
              [{ side := s0.lastGazeSide, startTime := last, endTime := t,
                 duration := dur }] }
        else s0
      else s0
    | none => s0
  { s1 with lastGazeSide := "unknown", lastGazeTime := none }

/-- The callback given to `setInterval` in `startGaze` (lines 186-199), once
its `await` has returned: `pred` is the prediction (`none` for a falsy one),
`side` the value of `getGazeSide(x, y)`, `t` the clock reading. -/
def gazeSample (pred : Option (Int × Int)) (side : String) (t : Int) (s : State) : State :=
  match pred with
  | none => s
  | some (x, y) =>
    logGazeState side t
      { s with gaze := s.gaze ++ [{ time := t, x := x, y := y, side := side }] }

/-- Function `startGaze()` (lines 182-200); `webgazer` tells whether
`window.webgazer` is set, `t` is the clock reading inside `stopGaze`, `timer`
the handle that `setInterval` returns. -/
def startGaze (webgazer : Bool) (t : Int) (timer : TimerId) (s : State) : State :=
  if !webgazer then s
  else { stopGaze t s with gazeTimer := some timer }

/-! ## Public API -/

/-- What `startLogging` reads from its environment. -/
structure StartEnv where
  /-- The result of `document.getElementById("writer")` with its properties. -/
  writer : Option (ElemRef × Element)
  /-- The result of `document.getElementById("graph")`. -/
  graph : Option ElemRef
  /-- The clock reading of line 239. -/
  now : Int
  /-- The handle of the pause-checker interval. -/
  pauseTimer : TimerId
  /-- Whether `window.webgazer` is set. -/
  webgazer : Bool
  /-- The clock reading inside `stopGaze` (line 208), when `startGaze` calls it. -/
  gazeNow : Int
  /-- The handle of the gaze interval. -/
  gazeTimer : TimerId
  deriving DecidableEq, Repr

/-- Method `etl.startLogging()` (lines 226-244). -/
def startLogging (env : StartEnv) (s : State) : State :=
  if s.started then s
  else
    let s1 : State := { s with writer := env.writer.map Prod.fst, graph := env.graph }
    let s2 : State :=
      match env.writer with
      | none => s1
      | some (_, el) => { s1 with textPrev := el.value }
    let s3 : State :=
      { s2 with started := true, startTime := some env.now, lastInputTime := some env.now }
    startGaze env.webgazer env.gazeNow env.gazeTimer (startPauseChecker env.pauseTimer s3)

/-- The field `meta` of the payload (lines 272-278). -/
structure Meta where
  version : String
  startedAt : Option Int
  endedAt : Int
  pauseThresholdMs : Int
  gazeSampleEveryMs : Int
  deriving DecidableEq, Repr

/-- The object `payload` (lines 271-284) that `stopLogging` serialises. -/
structure Payload where
  info : Meta
  keystrokes : List Keystroke
  textchanges : List TextChange
  pauses : List Pause
  gaze_raw : List GazeSample
  gaze_states : List GazeState
  deriving DecidableEq, Repr

/-- What `stopLogging` reads from its environment. -/
structure StopEnv where
  /-- The clock reading of line 256. -/
  now : Int
  /-- The property `state.writer.selectionStart` (read when `state.writer` is set). -/
  selectionStart : Nat
  /-- The clock reading inside `stopGaze` (line 208). -/
  gazeNow : Int
  deriving DecidableEq, Repr

/-- Method `etl.stopLogging()` (lines 246-294): the value returned (`none` for
`null`, otherwise the payload handed to `JSON.stringify`) and the state left
behind. -/
def stopLogging (env : StopEnv) (s : State) : Option Payload × State :=
  if !s.started then (none, s)
  else
    let s1 : State := { s with started := false }
    let t := env.now
    let s2 : State :=
      match s1.pauseStart with
      | some ps =>
        if s1.pauseActive then
          { s1 with
            pauses := s1.pauses ++
              [{ startTime := some ps, endTime := t, duration := t - ps,
                 cursorIndexAtPause := s1.writer.map (fun _ => env.selectionStart) }]
            pauseActive := false
            pauseStart := none }
        else s1
      | none => s1
    let s3 : State := stopGaze env.gazeNow (stopPauseChecker s2)
    let payload : Payload :=
      { info :=
          { version := "etl-1.0", startedAt := s3.startTime, endedAt := t,
            pauseThresholdMs := PAUSE_THRESHOLD_MS,
            gazeSampleEveryMs := GAZE_SAMPLE_EVERY_MS }
        keystrokes := s3.keystrokes
        textchanges := s3.textchanges
        pauses := s3.pauses
        gaze_raw := s3.gaze
        gaze_states := s3.gaze_states }
    (some payload,
      { s3 with keystrokes := [], textchanges := [], pauses := [], gaze := [],
                gaze_states := [] })

/-- A call made on the dwell segmenter: `logGazeState(side, t)` or `stopGaze()`
at clock reading `t`. -/
inductive GazeCall where
  | log (side : String) (t : Int)
  | stop (t : Int)
  deriving DecidableEq, Repr

/-- The state after one call on the dwell segmenter. -/
def GazeCall.run (s : State) : GazeCall → State
  | .log side t => logGazeState side t s
  | .stop t => stopGaze t s

/-- The state after a sequence of calls on the dwell segmenter, in order. -/
def runGaze (calls : List GazeCall) (s : State) : State :=
  calls.foldl GazeCall.run s

/-- What the minimum-dwell rule asks of a record of `gaze_states`: it lasted at
least `GAZE_MIN_DWELL_MS`, its `duration` is `endTime - startTime`, and its
side is not the placeholder `"unknown"`. -/
def GazeState.Retained (r : GazeState) : Prop :=
  r.duration ≥ GAZE_MIN_DWELL_MS ∧ r.duration = r.endTime - r.startTime ∧
    r.side ≠ "unknown"

/-- An empty `#writer` element with the cursor at 0. -/
def emptyWriter : Element := { value := [], selectionStart := 0, selectionEnd := 0 }

/-- An environment for `startLogging` at clock reading 0: a `#writer` element,
no `#graph` element, no WebGazer. -/
def startEnv0 : StartEnv :=
  { writer := some (1, emptyWriter), graph := none, now := 0, pauseTimer := 1,
    webgazer := false, gazeNow := 0, gazeTimer := 2 }

/-- A session started at clock reading 0 with one input event at 0. -/
def activeAt0 : State := onInput 0 emptyWriter (startLogging startEnv0 State.init)

/-- An environment for `stopLogging` at clock reading 3000. -/
def stopEnv3000 : StopEnv := { now := 3000, selectionStart := 0, gazeNow := 3000 }

/-- The record that closes the open dwell segment at clock reading `t`, if the
segment is kept: the side is not `"unknown"`, a start time is set and the
segment lasted at least `GAZE_MIN_DWELL_MS`. -/
def closingSegment (t : Int) (s : State) : List GazeState :=
  match s.lastGazeTime with
  | some last =>
    if s.lastGazeSide ≠ "unknown" ∧ t - last ≥ GAZE_MIN_DWELL_MS then
      [{ side := s.lastGazeSide, startTime := last, endTime := t, duration := t - last }]
    else []
  | none => []

/-- The record that closes the pause open at clock reading `t`, if the tracker
is paused with a start time. -/
def closingPause (env : StopEnv) (s : State) : List Pause :=
  match s.pauseStart with
  | some ps =>
    if s.pauseActive then
      [{ startTime := some ps, endTime := env.now, duration := env.now - ps,
         cursorIndexAtPause := s.writer.map (fun _ => env.selectionStart) }]
    else []
  | none => []

/-! ## The logger as a transition system -/

/-- An event the logger reacts to, with what it reads from its environment. -/
inductive Event where
  /-- A call of `etl.startLogging()`. -/
  | start (env : StartEnv)
  /-- A call of `etl.stopLogging()`. -/
  | stop (env : StopEnv)
  /-- A `keydown` event on the writer element. -/
  | keydown (key code : String) (t : Int) (el : Element)
  /-- An `input` event on the writer element. -/
  | input (t : Int) (el : Element)
  /-- One run of the pause-checker interval callback. -/
  | tick (t : Int)
  /-- The gaze interval fires: its callback starts and waits for
  `getCurrentPrediction()` (lines 186-188). -/
  | gazePoll (t : Int)
  /-- A waiting gaze callback resumes (lines 189-195) with the prediction
  `pred`, classified as `side`, at clock reading `t`. -/
  | gaze (pred : Option (Int × Int)) (side : String) (t : Int)
  deriving DecidableEq, Repr

/-- The clock reading of an event (for `stopLogging`, the reading of
line 256). -/
def Event.time : Event → Int
  | .start env => env.now
  | .stop env => env.now
  | .keydown _ _ t _ => t
  | .input t _ => t
  | .tick t => t
  | .gazePoll t => t
  | .gaze _ _ t => t

/-- The logger together with the browser state that decides which events reach
it: `listening` tells whether `onKeydown` and `onInput` are registered on the
writer element (`addEventListener` at lines 234-235, `removeEventListener` at
lines 251-252); `pendingGaze` counts the gaze callbacks that have started and
are waiting at their `await` (line 188). -/
structure Sys where
  state : State
  listening : Bool
  pendingGaze : Nat
  deriving DecidableEq, Repr

/-- The logger when the script has just been loaded. -/
def Sys.init : Sys := { state := State.init, listening := false, pendingGaze := 0 }

/-- One event. `startLogging` registers the listeners when it finds a writer
and `stopLogging` removes them when `state.writer` is set; a `keydown` or
`input` event reaches its handler only while the listeners are registered; the
pause-checker callback runs only while its interval is armed (`pauseChecker`
holds a handle). The gaze callback is `async`: the interval starts it only
while it is armed (`state.gazeTimer` holds a handle), but the part after its
`await` runs whenever the prediction arrives, with no test of `state.started`
or `state.gazeTimer`, so also after `stopLogging` has cleared the interval. -/
def Sys.step (w : Sys) : Event → Sys
  | .start env =>
    if w.state.started then w
    else { w with state := startLogging env w.state,
                  listening := w.listening || env.writer.isSome }
  | .stop env =>
    if w.state.started then
      { w with state := (stopLogging env w.state).2,
               listening := w.listening && !w.state.writer.isSome }
    else w
  | .keydown key code t el =>
    if w.listening then { w with state := onKeydown key code t el w.state } else w
  | .input t el =>
    if w.listening then { w with state := onInput t el w.state } else w
  | .tick t =>
    if w.state.pauseChecker.isSome then { w with state := pauseTick t w.state } else w
  | .gazePoll _ =>
    if w.state.gazeTimer.isSome then { w with pendingGaze := w.pendingGaze + 1 } else w
  | .gaze pred side t =>
    if w.pendingGaze > 0 then
      { w with state := gazeSample pred side t w.state, pendingGaze := w.pendingGaze - 1 }
    else w

/-- The logger after a sequence of events, in order. -/
def Sys.run (evs : List Event) (w : Sys) : Sys := evs.foldl Sys.step w

/-- What a run has produced so far: the logger, the payloads returned by the
calls of `stopLogging`, and the clock readings of the `input` events that
`onInput` recorded (those that reached it with a writer set). -/
structure Trace where
  sys : Sys
  payloads : List Payload
  inputs : List Int
  deriving DecidableEq, Repr

/-- The trace before any event. -/
def Trace.init : Trace := { sys := Sys.init, payloads := [], inputs := [] }

/-- One event, with its outputs collected. -/
def Trace.step (r : Trace) (e : Event) : Trace :=
  { sys := r.sys.step e
    payloads := r.payloads ++
      (match e with
       | .stop env => (stopLogging env r.sys.state).1.toList
       | _ => [])
    inputs := r.inputs ++
      (match e with
       | .input t _ => if r.sys.listening && r.sys.state.writer.isSome then [t] else []
       | _ => []) }

/-- The trace after a sequence of events, in order. -/
def Trace.run (evs : List Event) (r : Trace) : Trace := evs.foldl Trace.step r

/-- Every record appended to `pauses` so far: those already handed out in a
payload and those still in the buffer. -/
def Trace.pausesLogged (r : Trace) : List Pause :=
  (r.payloads.map Payload.pauses).flatten ++ r.sys.state.pauses

/-- Clock readings that never go back, each at least `T`. -/
def nonDecreasingFrom : Int → List Int → Prop
  | _, [] => True
  | T, t :: ts => T ≤ t ∧ nonDecreasingFrom t ts

/-- Clock readings that never go back. -/
def nonDecreasing : List Int → Prop
  | [] => True
  | t :: ts => nonDecreasingFrom t ts

/-- The clock reading of a call on the dwell segmenter. -/
def GazeCall.time : GazeCall → Int
  | .log _ t => t
  | .stop t => t

/-! ## Replaying the edit log -/

/-- One logged op applied to a text, in the words of the replay rule: an insert
puts `text` at `start`; a delete removes `old[start..start+nChars)`; a replace
puts `insText` in place of `old[start..start+nCharsDel)`. -/
def applyOp (old : JSString) : EditOp → JSString
  | .insert start _ _ text => old.take start ++ text ++ old.drop start
  | .delete start _ nChars _ => old.take start ++ old.drop (start + nChars)
  | .replace start _ nCharsDel _ _ insText =>
    old.take start ++ insText ++ old.drop (start + nCharsDel)

/-- The logged ops applied in order. -/
def replay (s0 : JSString) (ops : List EditOp) : JSString := ops.foldl applyOp s0

/-- The state after a sequence of `input` events, each with its clock reading
and the writer element as it is at that moment. -/
def runInputs (evs : List (Int × Element)) (s : State) : State :=
  evs.foldl (fun st e => onInput e.1 e.2 st) s

/-- The last snapshot of a sequence of `input` events, `s0` when there is
none. -/
def lastSnapshot (s0 : JSString) (evs : List (Int × Element)) : JSString :=
  evs.foldl (fun _ e => e.2.value) s0

/-- The `input` events whose snapshot differs from the text before them,
starting from the text `s0`. -/
def changing : JSString → List (Int × Element) → List (Int × Element)
  | _, [] => []
  | s0, e :: es =>
    if s0 = e.2.value then changing e.2.value es else e :: changing e.2.value es

/-- The op of the reversed diff, from the op of the diff. -/
def EditOp.swap : EditOp → EditOp
  | .insert start stop nChars text => .delete start stop nChars text
  | .delete start stop nChars text => .insert start stop nChars text
  | .replace start _ nCharsDel nCharsIns delText insText =>
    .replace start (start + nCharsIns) nCharsIns nCharsDel insText delText

/-- The dwell samples `(left, 0), (left, 50), (right, 80), (left, 250)`. -/
def dwellSamples : List GazeCall :=
  [.log "left" 0, .log "left" 50, .log "right" 80, .log "left" 250]

/-- Three `input` events with the snapshots `"cat"`, `"cat"`, `"cot"`. -/
def snapshotEvents : List (Int × Element) :=
  [(1, { value := "cat".toList, selectionStart := 3, selectionEnd := 3 }),
   (2, { value := "cat".toList, selectionStart := 3, selectionEnd := 3 }),
   (3, { value := "cot".toList, selectionStart := 2, selectionEnd := 2 })]

/-- What the dwell segmenter keeps true up to the clock reading `T`: the
records are in time order without overlap, none ends after `T`, and the open
segment starts no earlier than any record ends and no later than `T`. -/
def DwellOrdered (s : State) (T : Int) : Prop :=
  List.Pairwise (fun r1 r2 : GazeState => r1.endTime ≤ r2.startTime) s.gaze_states ∧
  (∀ r ∈ s.gaze_states, r.startTime ≤ r.endTime) ∧
  (∀ r ∈ s.gaze_states, r.endTime ≤ T) ∧
  (∀ l, s.lastGazeTime = some l → l ≤ T ∧ ∀ r ∈ s.gaze_states, r.endTime ≤ l)

/-- A state that some sequence of events reaches from the initial one. -/
def Sys.Reachable (w : Sys) : Prop := ∃ evs, w = Sys.run evs Sys.init

/-- What holds of the logger in every state a sequence of events can reach:
the listeners are registered only on a started session with a writer;
`pauseActive` is true exactly when `pauseStart` is set, and then the session
is started and `pauseStart` is `lastInputTime`; between sessions the
keystroke, textchange and pause buffers are empty and the gaze interval is not
armed. -/
structure Sys.Inv (w : Sys) : Prop where
  listening_started : w.listening = true → w.state.started = true ∧ w.state.writer ≠ none
  paused_iff : w.state.pauseActive = true ↔ w.state.pauseStart ≠ none
  paused_started : w.state.pauseActive = true →
    w.state.started = true ∧ w.state.pauseStart = w.state.lastInputTime
  idle_empty : w.state.started = false →
    w.state.keystrokes = [] ∧ w.state.textchanges = [] ∧ w.state.pauses = [] ∧
    w.state.gazeTimer = none

/-- What is asked of a logged pause, seen at the clock reading `T` with the
input events recorded so far: it ended by `T`, it has a start time, its
`duration` is `endTime - startTime` and at least `PAUSE_THRESHOLD_MS`, and no
recorded input lies strictly between its start and its end. -/
def Pause.Ok (T : Int) (inputs : List Int) (p : Pause) : Prop :=
  p.endTime ≤ T ∧
  ∃ st, p.startTime = some st ∧ p.duration = p.endTime - st ∧
    p.duration ≥ PAUSE_THRESHOLD_MS ∧ ∀ u ∈ inputs, ¬ (st < u ∧ u < p.endTime)

/-- What holds of a trace whose events so far have clock readings up to `T`,
never going back. -/
structure Trace.Inv (r : Trace) (T : Int) : Prop where
  sys : r.sys.Inv
  inputs_le : ∀ u ∈ r.inputs, u ≤ T
  last_input : r.sys.state.started = true →
    ∃ L, r.sys.state.lastInputTime = some L ∧ L ≤ T ∧ ∀ u ∈ r.inputs, u ≤ L
  paused_long : r.sys.state.pauseActive = true →
    ∃ L, r.sys.state.lastInputTime = some L ∧ L + PAUSE_THRESHOLD_MS ≤ T
  exported : ∀ pl ∈ r.payloads, ∀ p ∈ pl.pauses, p.Ok T r.inputs
  buffered : ∀ p ∈ r.sys.state.pauses, p.Ok T r.inputs

/-- A session with a gaze interval, two gaze samples, an input, a detected
pause and a stop. -/
def sessionEvents : List Event :=
  [.start { startEnv0 with webgazer := true },
   .gazePoll 50,
   .gaze (some (10, 10)) "left" 100,
   .input 200 { value := "a".toList, selectionStart := 1, selectionEnd := 1 },
   .keydown "b" "KeyB" 300 { value := "a".toList, selectionStart := 1, selectionEnd := 1 },
   .gazePoll 350,
   .gaze (some (900, 10)) "right" 400,
   .tick 2300,
   .stop stopEnv3000]

/-- Activity at 0, a tick at 2000, activity at 2500, in a session started
at 0. -/
def pauseEvents : List Event :=
  [.start startEnv0, .input 0 emptyWriter, .tick 2000, .input 2500 emptyWriter]

/-- A session with a gaze interval that is stopped at 200 while one gaze
callback, started at 100, is still waiting for its prediction; the prediction
`(10, 10)` arrives at 250. -/
def staleGazeEvents : List Event :=
  [.start { startEnv0 with webgazer := true },
   .gazePoll 100,
   .stop { now := 200, selectionStart := 0, gazeNow := 200 },
   .gaze (some (10, 10)) "left" 250]

/-- An environment for `startLogging` at clock reading 1000, with WebGazer. -/
def startEnv1000 : StartEnv :=
  { startEnv0 with now := 1000, webgazer := true, gazeNow := 1000 }

/-! ## Facts about the two scanning loops -/

theorem prefixLoop_bounds (a b : JSString) (m : Nat) :
    ∀ (fuel i : Nat), i ≤ m →
      i ≤ prefixLoop a b m fuel i ∧ prefixLoop a b m fuel i ≤ m := by
  intro fuel
  induction fuel with
  | zero => intro i hi; exact ⟨Nat.le_refl _, hi⟩
  | succ n ih =>
    intro i hi
    unfold prefixLoop
    split
    · rename_i hc
      have h := ih (i + 1) hc.1
      exact ⟨by omega, h.2⟩
    · exact ⟨Nat.le_refl _, hi⟩

theorem prefixLoop_agree (a b : JSString) (m : Nat) :
    ∀ (fuel i : Nat), (∀ k, k < i → a[k]? = b[k]?) →
      ∀ k, k < prefixLoop a b m fuel i → a[k]? = b[k]? := by
  intro fuel
  induction fuel with
  | zero => intro i hi k hk; exact hi k hk
  | succ n ih =>
    intro i hi
    unfold prefixLoop
    split
    · rename_i hc
      apply ih (i + 1)
      intro k hk
      rcases Nat.lt_succ_iff_lt_or_eq.mp hk with h | h
      · exact hi k h
      · rw [h]; exact hc.2
    · exact hi

/-- The first loop leaves through its guard: with at least `m - i` iterations
allowed, the guard is false at the value returned. -/
theorem prefixLoop_exit (a b : JSString) (m : Nat) :
    ∀ (fuel i : Nat), m - i ≤ fuel →
      ¬ (prefixLoop a b m fuel i < m ∧
          a[prefixLoop a b m fuel i]? = b[prefixLoop a b m fuel i]?) := by
  intro fuel
  induction fuel with
  | zero =>
    intro i hi
    unfold prefixLoop
    intro h
    omega
  | succ n ih =>
    intro i hi
    unfold prefixLoop
    split
    · exact ih (i + 1) (by omega)
    · rename_i hc; exact hc

theorem suffixLoop_bounds (a b : JSString) (m i : Nat) :
    ∀ (fuel j : Nat), j ≤ m - i →
      j ≤ suffixLoop a b m i fuel j ∧ suffixLoop a b m i fuel j ≤ m - i := by
  intro fuel
  induction fuel with
  | zero => intro j hj; exact ⟨Nat.le_refl _, hj⟩
  | succ n ih =>
    intro j hj
    unfold suffixLoop
    split
    · rename_i hc
      have h := ih (j + 1) hc.1
      exact ⟨by omega, h.2⟩
    · exact ⟨Nat.le_refl _, hj⟩

theorem suffixLoop_agree (a b : JSString) (m i : Nat) :
    ∀ (fuel j : Nat),
      (∀ k, k < j → a[a.length - 1 - k]? = b[b.length - 1 - k]?) →
      ∀ k, k < suffixLoop a b m i fuel j →
        a[a.length - 1 - k]? = b[b.length - 1 - k]? := by
  intro fuel
  induction fuel with
  | zero => intro j hj k hk; exact hj k hk
  | succ n ih =>
    intro j hj
    unfold suffixLoop
    split
    · rename_i hc
      apply ih (j + 1)
      intro k hk
      rcases Nat.lt_succ_iff_lt_or_eq.mp hk with h | h
      · exact hj k h
      · rw [h]; exact hc.2
    · exact hj

/-- The second loop leaves through its guard. -/
theorem suffixLoop_exit (a b : JSString) (m i : Nat) :
    ∀ (fuel j : Nat), m - i - j ≤ fuel →
      ¬ (suffixLoop a b m i fuel j < m - i ∧
          a[a.length - 1 - suffixLoop a b m i fuel j]?
            = b[b.length - 1 - suffixLoop a b m i fuel j]?) := by
  intro fuel
  induction fuel with
  | zero =>
    intro j hj
    unfold suffixLoop
    intro h
    omega
  | succ n ih =>
    intro j hj
    unfold suffixLoop
    split
    · exact ih (j + 1) (by omega)
    · rename_i hc; exact hc

/-! ## Lists that agree on a prefix or on a suffix -/

theorem take_eq_of_agree (a b : JSString) (n : Nat)
    (h : ∀ k, k < n → a[k]? = b[k]?) : a.take n = b.take n := by
  apply List.ext_getElem?
  intro k
  rw [List.getElem?_take, List.getElem?_take]
  split
  · rename_i hk; exact h k hk
  · rfl

theorem drop_eq_of_agree (a b : JSString) (n : Nat)
    (ha : n ≤ a.length) (hb : n ≤ b.length)
    (h : ∀ k, k < n → a[a.length - 1 - k]? = b[b.length - 1 - k]?) :
    a.drop (a.length - n) = b.drop (b.length - n) := by
  apply List.ext_getElem?
  intro k
  rw [List.getElem?_drop, List.getElem?_drop]
  by_cases hk : k < n
  · have h1 := h (n - 1 - k) (by omega)
    have e1 : a.length - 1 - (n - 1 - k) = a.length - n + k := by omega
    have e2 : b.length - 1 - (n - 1 - k) = b.length - n + k := by omega
    rw [e1, e2] at h1
    exact h1
  · rw [List.getElem?_eq_none (by omega), List.getElem?_eq_none (by omega)]

/-- A list splits into the part before `i`, the slice `[i, n)` and the part
from `n` on. -/
theorem split_at_slice (a : JSString) (i n : Nat) (h : i ≤ n) :
    a = a.take i ++ slice a i n ++ a.drop n := by
  have h1 : (a.take n).take i = a.take i := by
    rw [List.take_take, Nat.min_eq_left h]
  have h2 : a.take n = a.take i ++ slice a i n := by
    unfold slice
    rw [← h1, List.take_append_drop]
  rw [← h2, List.take_append_drop]

theorem length_slice (a : JSString) (i n : Nat) :
    (slice a i n).length = min n a.length - i := by
  unfold slice
  rw [List.length_drop, List.length_take]

/-! ## What `computeDiff` computes -/

theorem diffPrefix_le (a b : JSString) :
    diffPrefix a b ≤ min a.length b.length :=
  (prefixLoop_bounds a b _ _ 0 (Nat.zero_le _)).2

theorem diffSuffix_le (a b : JSString) :
    diffSuffix a b ≤ min a.length b.length - diffPrefix a b :=
  (suffixLoop_bounds a b _ _ _ 0 (Nat.zero_le _)).2

/-- The prefix and the suffix found never overlap. -/
theorem diffPrefix_add_diffSuffix_le (a b : JSString) :
    diffPrefix a b + diffSuffix a b ≤ min a.length b.length := by
  have h1 := diffPrefix_le a b
  have h2 := diffSuffix_le a b
  omega

theorem take_diffPrefix (a b : JSString) :
    a.take (diffPrefix a b) = b.take (diffPrefix a b) :=
  take_eq_of_agree a b _
    (prefixLoop_agree a b _ _ 0 (fun k hk => absurd hk (Nat.not_lt_zero k)))

theorem drop_diffSuffix (a b : JSString) :
    a.drop (a.length - diffSuffix a b) = b.drop (b.length - diffSuffix a b) := by
  have h := diffPrefix_add_diffSuffix_le a b
  have h3 : min a.length b.length ≤ a.length := Nat.min_le_left _ _
  have h4 : min a.length b.length ≤ b.length := Nat.min_le_right _ _
  exact drop_eq_of_agree a b _ (by omega) (by omega)
    (suffixLoop_agree a b _ _ _ 0 (fun k hk => absurd hk (Nat.not_lt_zero k)))

theorem old_decomp (a b : JSString) :
    a = a.take (diffPrefix a b) ++ oldMid a b ++ a.drop (a.length - diffSuffix a b) := by
  have h := diffPrefix_add_diffSuffix_le a b
  have h3 : min a.length b.length ≤ a.length := Nat.min_le_left _ _
  exact split_at_slice a _ _ (by omega)

theorem new_decomp (a b : JSString) :
    b = b.take (diffPrefix a b) ++ newMid a b ++ b.drop (b.length - diffSuffix a b) := by
  have h := diffPrefix_add_diffSuffix_le a b
  have h4 : min a.length b.length ≤ b.length := Nat.min_le_right _ _
  exact split_at_slice b _ _ (by omega)

theorem length_oldMid (a b : JSString) :
    (oldMid a b).length = a.length - diffSuffix a b - diffPrefix a b := by
  unfold oldMid
  rw [length_slice]
  congr 1
  exact Nat.min_eq_left (Nat.sub_le _ _)

theorem length_newMid (a b : JSString) :
    (newMid a b).length = b.length - diffSuffix a b - diffPrefix a b := by
  unfold newMid
  rw [length_slice]
  congr 1
  exact Nat.min_eq_left (Nat.sub_le _ _)

/-- Both regions empty forces equal texts. -/
theorem eq_of_mids_nil (a b : JSString)
    (ho : oldMid a b = []) (hn : newMid a b = []) : a = b := by
  have h1 := old_decomp a b
  have h2 := new_decomp a b
  rw [ho, take_diffPrefix a b, drop_diffSuffix a b] at h1
  rw [hn] at h2
  exact h1.trans h2.symm

/-- The index `i + oldMid.length` is where the common suffix starts in the old
text. -/
theorem diffPrefix_add_length_oldMid (a b : JSString) :
    diffPrefix a b + (oldMid a b).length = a.length - diffSuffix a b := by
  have h := diffPrefix_add_diffSuffix_le a b
  have h3 : min a.length b.length ≤ a.length := Nat.min_le_left _ _
  rw [length_oldMid]
  omega

theorem diffPrefix_add_length_newMid (a b : JSString) :
    diffPrefix a b + (newMid a b).length = b.length - diffSuffix a b := by
  have h := diffPrefix_add_diffSuffix_le a b
  have h4 : min a.length b.length ≤ b.length := Nat.min_le_right _ _
  rw [length_newMid]
  omega

/-- The new text is the old prefix, the new region and the old suffix. -/
theorem new_eq_old_parts (a b : JSString) :
    a.take (diffPrefix a b) ++ newMid a b ++ a.drop (a.length - diffSuffix a b) = b := by
  rw [take_diffPrefix a b, drop_diffSuffix a b]
  exact (new_decomp a b).symm

/-- The three branches of `computeDiff` on different texts, by the emptiness
of the two regions. -/
theorem computeDiff_of_ne (a b : JSString) (h : a ≠ b) :
    computeDiff a b =
      if (newMid a b).length > 0 ∧ (oldMid a b).length = 0 then
        some (EditOp.insert (diffPrefix a b) (diffPrefix a b + (newMid a b).length)
          (newMid a b).length (newMid a b))
      else if (oldMid a b).length > 0 ∧ (newMid a b).length = 0 then
        some (EditOp.delete (diffPrefix a b) (diffPrefix a b + (oldMid a b).length)
          (oldMid a b).length (oldMid a b))
      else
        some (EditOp.replace (diffPrefix a b) (diffPrefix a b + (oldMid a b).length)
          (oldMid a b).length (newMid a b).length (oldMid a b) (newMid a b)) := by
  unfold computeDiff
  rw [if_neg h]

theorem computeDiff_insert (a b : JSString) (h : a ≠ b) (ho : oldMid a b = []) :
    computeDiff a b =
      some (EditOp.insert (diffPrefix a b) (diffPrefix a b + (newMid a b).length)
        (newMid a b).length (newMid a b)) := by
  have hn : newMid a b ≠ [] := fun hn => h (eq_of_mids_nil a b ho hn)
  rw [computeDiff_of_ne a b h, if_pos]
  exact ⟨List.length_pos.mpr hn, by rw [ho]; rfl⟩

theorem computeDiff_delete (a b : JSString) (h : a ≠ b) (hn : newMid a b = []) :
    computeDiff a b =
      some (EditOp.delete (diffPrefix a b) (diffPrefix a b + (oldMid a b).length)
        (oldMid a b).length (oldMid a b)) := by
  have ho : oldMid a b ≠ [] := fun ho => h (eq_of_mids_nil a b ho hn)
  have ho1 : (oldMid a b).length > 0 := List.length_pos.mpr ho
  rw [computeDiff_of_ne a b h, if_neg, if_pos]
  · exact ⟨ho1, by rw [hn]; rfl⟩
  · intro hc
    omega

theorem computeDiff_replace (a b : JSString) (h : a ≠ b)
    (ho : oldMid a b ≠ []) (hn : newMid a b ≠ []) :
    computeDiff a b =
      some (EditOp.replace (diffPrefix a b) (diffPrefix a b + (oldMid a b).length)
        (oldMid a b).length (newMid a b).length (oldMid a b) (newMid a b)) := by
  have ho1 : (oldMid a b).length > 0 := List.length_pos.mpr ho
  have hn1 : (newMid a b).length > 0 := List.length_pos.mpr hn
  rw [computeDiff_of_ne a b h, if_neg, if_neg]
  · intro hc
    omega
  · intro hc
    omega

/-! ## C1: round trip -/

/-- C1. Round trip of `computeDiff`: when it returns `null` the two texts are
equal; otherwise applying the returned op to the old text `a` gives the new
text `b`. For an insert, `a[0..start) ++ text ++ a[start..)` is `b`; for a
delete, `a[start..end)` is `text` and `a[0..start) ++ a[end..)` is `b`; for a
replace, `a[start..end)` is `delText` and `a[0..start) ++ insText ++ a[end..)`
is `b`. -/
theorem computeDiff_roundtrip (a b : JSString) :
    match computeDiff a b with
    | none => a = b
    | some (EditOp.insert start _ _ text) =>
        a.take start ++ text ++ a.drop start = b
    | some (EditOp.delete start stop _ text) =>
        slice a start stop = text ∧ a.take start ++ a.drop stop = b
    | some (EditOp.replace start stop _ _ delText insText) =>
        slice a start stop = delText ∧ a.take start ++ insText ++ a.drop stop = b := by
  by_cases h : a = b
  · have hc : computeDiff a b = none := by
      unfold computeDiff
      rw [if_pos h]
    rw [hc]
    exact h
  · by_cases ho : oldMid a b = []
    · rw [computeDiff_insert a b h ho]
      have e := diffPrefix_add_length_oldMid a b
      rw [ho] at e
      have key := new_eq_old_parts a b
      rw [← e] at key
      exact key
    · by_cases hn : newMid a b = []
      · rw [computeDiff_delete a b h hn]
        refine ⟨?_, ?_⟩
        · rw [diffPrefix_add_length_oldMid]
          rfl
        · rw [diffPrefix_add_length_oldMid]
          have key := new_eq_old_parts a b
          rw [hn, List.append_nil] at key
          exact key
      · rw [computeDiff_replace a b h ho hn]
        refine ⟨?_, ?_⟩
        · rw [diffPrefix_add_length_oldMid]
          rfl
        · rw [diffPrefix_add_length_oldMid]
          exact new_eq_old_parts a b

/-! ## C2: indexing convention -/

theorem diffPrefix_isCommonPrefixLen (a b : JSString) :
    IsCommonPrefixLen a b (diffPrefix a b) := by
  have h := diffPrefix_le a b
  have h3 : min a.length b.length ≤ a.length := Nat.min_le_left _ _
  have h4 : min a.length b.length ≤ b.length := Nat.min_le_right _ _
  exact ⟨by omega, by omega, take_diffPrefix a b⟩

/-- No common prefix is longer than the one the first loop finds. -/
theorem diffPrefix_longest (a b : JSString) (n : Nat)
    (h : IsCommonPrefixLen a b n) : n ≤ diffPrefix a b := by
  by_contra hlt
  have hlt1 : diffPrefix a b < n := Nat.lt_of_not_le hlt
  obtain ⟨hna, hnb, ht⟩ := h
  have hx := prefixLoop_exit a b (min a.length b.length) (min a.length b.length) 0
    (by omega)
  apply hx
  refine ⟨?_, ?_⟩
  · have : n ≤ min a.length b.length := Nat.le_min.mpr ⟨hna, hnb⟩
    exact Nat.lt_of_lt_of_le hlt1 this
  · have e1 : (a.take n)[diffPrefix a b]? = a[diffPrefix a b]? :=
      List.getElem?_take_of_lt hlt1
    have e2 : (b.take n)[diffPrefix a b]? = b[diffPrefix a b]? :=
      List.getElem?_take_of_lt hlt1
    have e3 : a[diffPrefix a b]? = b[diffPrefix a b]? := by
      rw [← e1, ← e2, ht]
    exact e3

/-- C2, as it fails: `computeDiff("hello", "hello world")` is an insert with
`start = 5` whose `end` is `11`, not `5`: it is neither `start` plus the length
of the (empty) old region nor an index into the old text. -/
theorem computeDiff_insert_end_counterexample :
    ∃ op, computeDiff "hello".toList "hello world".toList = some op ∧
      op.type = "insert" ∧ op.start = 5 ∧ op.end_ = 11 ∧
      op.end_ ≠ op.start ∧
      op.end_ ≠ op.start + (oldMid "hello".toList "hello world".toList).length ∧
      ¬ op.end_ ≤ "hello".toList.length :=
  ⟨EditOp.insert 5 11 6 " world".toList, by decide, by decide, by decide, by decide,
    by decide, by decide, by decide⟩

/-- C2, amended. For different texts `a` and `b` the returned op has `start`
equal to the length of the longest common prefix; a delete or a replace has
`end = start + |removed text|`, an index into the old text bounding the
region `a[start..end)` that is removed; an insert has
`end = start + |inserted text|`, an index into the new text bounding the region
`b[start..end)` that was inserted. In particular
`computeDiff("hello", "hello world")` is an insert with `start = 5`,
`end = 11` and text `" world"`. -/
theorem computeDiff_indexing (a b : JSString) (h : a ≠ b) :
    (∃ op, computeDiff a b = some op ∧
      IsCommonPrefixLen a b op.start ∧
      (∀ n, IsCommonPrefixLen a b n → n ≤ op.start) ∧
      (op.type ≠ "insert" →
        op.end_ = op.start + op.removed.length ∧ op.end_ ≤ a.length ∧
          slice a op.start op.end_ = op.removed) ∧
      (op.type = "insert" →
        op.removed = [] ∧ op.end_ = op.start + op.inserted.length ∧
          op.end_ ≤ b.length ∧ slice b op.start op.end_ = op.inserted)) ∧
    computeDiff "hello".toList "hello world".toList
      = some (EditOp.insert 5 11 6 " world".toList) := by
  refine ⟨?_, by decide⟩
  have hp := diffPrefix_isCommonPrefixLen a b
  have hl := diffPrefix_longest a b
  have eo := diffPrefix_add_length_oldMid a b
  have en := diffPrefix_add_length_newMid a b
  by_cases ho : oldMid a b = []
  · refine ⟨_, computeDiff_insert a b h ho, hp, hl, ?_, ?_⟩
    · intro hc
      exact absurd rfl hc
    · intro _
      refine ⟨rfl, rfl, ?_, ?_⟩
      · show diffPrefix a b + (newMid a b).length ≤ b.length
        omega
      · show slice b (diffPrefix a b) (diffPrefix a b + (newMid a b).length) = newMid a b
        rw [en]
        rfl
  · by_cases hn : newMid a b = []
    · refine ⟨_, computeDiff_delete a b h hn, hp, hl, ?_, ?_⟩
      · intro _
        refine ⟨rfl, ?_, ?_⟩
        · show diffPrefix a b + (oldMid a b).length ≤ a.length
          omega
        · show slice a (diffPrefix a b) (diffPrefix a b + (oldMid a b).length) = oldMid a b
          rw [eo]
          rfl
      · intro hc
        have hc1 : "delete" = "insert" := hc
        exact absurd hc1 (by decide)
    · refine ⟨_, computeDiff_replace a b h ho hn, hp, hl, ?_, ?_⟩
      · intro _
        refine ⟨rfl, ?_, ?_⟩
        · show diffPrefix a b + (oldMid a b).length ≤ a.length
          omega
        · show slice a (diffPrefix a b) (diffPrefix a b + (oldMid a b).length) = oldMid a b
          rw [eo]
          rfl
      · intro hc
        have hc1 : "replace" = "insert" := hc
        exact absurd hc1 (by decide)

/-- C2 (amended) at `a = "cat"`, `b = "cot"`. -/
theorem computeDiff_indexing_witness :
    "cat".toList ≠ "cot".toList ∧
    ((∃ op, computeDiff "cat".toList "cot".toList = some op ∧
      IsCommonPrefixLen "cat".toList "cot".toList op.start ∧
      (∀ n, IsCommonPrefixLen "cat".toList "cot".toList n → n ≤ op.start) ∧
      (op.type ≠ "insert" →
        op.end_ = op.start + op.removed.length ∧ op.end_ ≤ "cat".toList.length ∧
          slice "cat".toList op.start op.end_ = op.removed) ∧
      (op.type = "insert" →
        op.removed = [] ∧ op.end_ = op.start + op.inserted.length ∧
          op.end_ ≤ "cot".toList.length ∧
          slice "cot".toList op.start op.end_ = op.inserted)) ∧
    computeDiff "hello".toList "hello world".toList
      = some (EditOp.insert 5 11 6 " world".toList)) :=
  ⟨by decide, computeDiff_indexing "cat".toList "cot".toList (by decide)⟩

/-! ## C3: classification -/

/-- C3. Classification of `computeDiff` on different texts `a`, `b`, with
`oldMid = a[i..|a|-j)` and `newMid = b[i..|b|-j)`: the two regions are never
both empty; the op is an insert exactly when `oldMid` is empty (then `newMid`
is non-empty and is the op's text), a delete exactly when `newMid` is empty
(then `oldMid` is non-empty and is the op's text), a replace exactly when both
are non-empty (with `delText = oldMid`, `insText = newMid`).
`computeDiff("hello world", "hello")` is a delete with start 5, end 11, text
`" world"`; `computeDiff("cat", "cot")` is a replace with start 1, end 2,
delText `"a"`, insText `"o"`. -/
theorem computeDiff_classification (a b : JSString) (h : a ≠ b) :
    (∃ op, computeDiff a b = some op ∧
      oldMid a b = slice a (diffPrefix a b) (a.length - diffSuffix a b) ∧
      newMid a b = slice b (diffPrefix a b) (b.length - diffSuffix a b) ∧
      ¬ (oldMid a b = [] ∧ newMid a b = []) ∧
      (op.type = "insert" ↔ oldMid a b = []) ∧
      (oldMid a b = [] →
        newMid a b ≠ [] ∧ ∃ st en n, op = EditOp.insert st en n (newMid a b)) ∧
      (op.type = "delete" ↔ newMid a b = []) ∧
      (newMid a b = [] →
        oldMid a b ≠ [] ∧ ∃ st en n, op = EditOp.delete st en n (oldMid a b)) ∧
      (op.type = "replace" ↔ (oldMid a b ≠ [] ∧ newMid a b ≠ [])) ∧
      ((oldMid a b ≠ [] ∧ newMid a b ≠ []) →
        ∃ st en n m, op = EditOp.replace st en n m (oldMid a b) (newMid a b))) ∧
    computeDiff "hello world".toList "hello".toList
      = some (EditOp.delete 5 11 6 " world".toList) ∧
    computeDiff "cat".toList "cot".toList
      = some (EditOp.replace 1 2 1 1 "a".toList "o".toList) := by
  refine ⟨?_, by decide, by decide⟩
  have hboth : ¬ (oldMid a b = [] ∧ newMid a b = []) :=
    fun hc => h (eq_of_mids_nil a b hc.1 hc.2)
  have e1 : "insert" ≠ "delete" := by decide
  have e2 : "insert" ≠ "replace" := by decide
  have e3 : "delete" ≠ "replace" := by decide
  by_cases ho : oldMid a b = []
  · have hn : newMid a b ≠ [] := fun hn => hboth ⟨ho, hn⟩
    refine ⟨_, computeDiff_insert a b h ho, rfl, rfl, hboth, ?_, ?_, ?_, ?_, ?_, ?_⟩
    · exact ⟨fun _ => ho, fun _ => rfl⟩
    · intro _
      exact ⟨hn, _, _, _, rfl⟩
    · exact ⟨fun hc => absurd (show "insert" = "delete" from hc) e1,
        fun hc => absurd hc hn⟩
    · intro hc
      exact absurd hc hn
    · exact ⟨fun hc => absurd (show "insert" = "replace" from hc) e2,
        fun hc => absurd ho hc.1⟩
    · intro hc
      exact absurd ho hc.1
  · by_cases hn : newMid a b = []
    · refine ⟨_, computeDiff_delete a b h hn, rfl, rfl, hboth, ?_, ?_, ?_, ?_, ?_, ?_⟩
      · exact ⟨fun hc => absurd (show "delete" = "insert" from hc) e1.symm,
          fun hc => absurd hc ho⟩
      · intro hc
        exact absurd hc ho
      · exact ⟨fun _ => hn, fun _ => rfl⟩
      · intro _
        exact ⟨ho, _, _, _, rfl⟩
      · exact ⟨fun hc => absurd (show "delete" = "replace" from hc) e3,
          fun hc => absurd hn hc.2⟩
      · intro hc
        exact absurd hn hc.2
    · refine ⟨_, computeDiff_replace a b h ho hn, rfl, rfl, hboth, ?_, ?_, ?_, ?_, ?_, ?_⟩
      · exact ⟨fun hc => absurd (show "replace" = "insert" from hc) e2.symm,
          fun hc => absurd hc ho⟩
      · intro hc
        exact absurd hc ho
      · exact ⟨fun hc => absurd (show "replace" = "delete" from hc) e3.symm,
          fun hc => absurd hc hn⟩
      · intro hc
        exact absurd hc hn
      · exact ⟨fun _ => ⟨ho, hn⟩, fun _ => rfl⟩
      · intro _
        exact ⟨_, _, _, _, rfl⟩

/-- C3 at `a = "hello world"`, `b = "hello"`. -/
theorem computeDiff_classification_witness :
    "hello world".toList ≠ "hello".toList ∧
    ∃ op, computeDiff "hello world".toList "hello".toList = some op ∧
      op.type = "delete" ∧ newMid "hello world".toList "hello".toList = [] :=
  ⟨by decide,
    match (computeDiff_classification "hello world".toList "hello".toList (by decide)).1 with
    | ⟨op, hop, _, _, _, _, _, hd, _⟩ => ⟨op, hop, hd.mpr (by decide), by decide⟩⟩

/-! ## C4: minimality -/

/-- Any shared prefix and shared suffix of the two texts fit inside the prefix
and suffix that `computeDiff` finds. -/
theorem shared_le_found (a b p x y s : JSString)
    (ha : a = p ++ x ++ s) (hb : b = p ++ y ++ s) :
    p.length + s.length ≤ diffPrefix a b + diffSuffix a b := by
  have hla : a.length = p.length + x.length + s.length := by
    rw [ha, List.length_append, List.length_append]
  have hlb : b.length = p.length + y.length + s.length := by
    rw [hb, List.length_append, List.length_append]
  have hp : p.length ≤ diffPrefix a b := by
    apply diffPrefix_longest
    refine ⟨by omega, by omega, ?_⟩
    rw [ha, hb, List.append_assoc, List.append_assoc, List.take_left, List.take_left]
  by_contra hlt
  have hx := suffixLoop_exit a b (min a.length b.length) (diffPrefix a b)
    (min a.length b.length) 0 (by omega)
  apply hx
  have hj : suffixLoop a b (min a.length b.length) (diffPrefix a b)
      (min a.length b.length) 0 = diffSuffix a b := rfl
  rw [hj]
  have hm : p.length + s.length ≤ min a.length b.length :=
    Nat.le_min.mpr ⟨by omega, by omega⟩
  refine ⟨by omega, ?_⟩
  have ea : a[a.length - 1 - diffSuffix a b]? = s[s.length - 1 - diffSuffix a b]? := by
    have h1 : (p ++ x ++ s)[a.length - 1 - diffSuffix a b]?
        = s[a.length - 1 - diffSuffix a b - (p ++ x).length]? :=
      List.getElem?_append_right (by rw [List.length_append]; omega)
    have h2 : a.length - 1 - diffSuffix a b - (p ++ x).length
        = s.length - 1 - diffSuffix a b := by
      rw [List.length_append]; omega
    rw [h2] at h1
    rw [← h1]
    congr 1
  have eb : b[b.length - 1 - diffSuffix a b]? = s[s.length - 1 - diffSuffix a b]? := by
    have h1 : (p ++ y ++ s)[b.length - 1 - diffSuffix a b]?
        = s[b.length - 1 - diffSuffix a b - (p ++ y).length]? :=
      List.getElem?_append_right (by rw [List.length_append]; omega)
    have h2 : b.length - 1 - diffSuffix a b - (p ++ y).length
        = s.length - 1 - diffSuffix a b := by
      rw [List.length_append]; omega
    rw [h2] at h1
    rw [← h1]
    congr 1
  rw [ea, eb]

/-- C4. Minimality of `computeDiff`: for different texts `a`, `b` and every
decomposition `a = p ++ x ++ s`, `b = p ++ y ++ s`, the text the returned op
removes is no longer than `x` and the text it inserts is no longer than
`y`. -/
theorem computeDiff_minimal (a b p x y s : JSString) (h : a ≠ b)
    (ha : a = p ++ x ++ s) (hb : b = p ++ y ++ s) :
    ∃ op, computeDiff a b = some op ∧
      op.removed = oldMid a b ∧ op.inserted = newMid a b ∧
      op.removed.length ≤ x.length ∧ op.inserted.length ≤ y.length := by
  have hla : a.length = p.length + x.length + s.length := by
    rw [ha, List.length_append, List.length_append]
  have hlb : b.length = p.length + y.length + s.length := by
    rw [hb, List.length_append, List.length_append]
  have hs := shared_le_found a b p x y s ha hb
  have lo := length_oldMid a b
  have ln := length_newMid a b
  have hox : (oldMid a b).length ≤ x.length := by omega
  have hny : (newMid a b).length ≤ y.length := by omega
  by_cases ho : oldMid a b = []
  · refine ⟨_, computeDiff_insert a b h ho, ho.symm, rfl, ?_, hny⟩
    exact Nat.zero_le _
  · by_cases hn : newMid a b = []
    · refine ⟨_, computeDiff_delete a b h hn, rfl, hn.symm, hox, ?_⟩
      exact Nat.zero_le _
    · exact ⟨_, computeDiff_replace a b h ho hn, rfl, rfl, hox, hny⟩

/-- C4 at `a = "abcab"`, `b = "abab"` with the decomposition `p = "ab"`,
`x = "ca"`, `y = "a"`, `s = "b"`: the op returned removes a single code unit. -/
theorem computeDiff_minimal_witness :
    "abcab".toList ≠ "abab".toList ∧
    ∃ op, computeDiff "abcab".toList "abab".toList = some op ∧
      op.removed = oldMid "abcab".toList "abab".toList ∧
      op.inserted = newMid "abcab".toList "abab".toList ∧
      op.removed.length ≤ "ca".toList.length ∧ op.inserted.length ≤ "a".toList.length :=
  ⟨by decide,
    computeDiff_minimal "abcab".toList "abab".toList "ab".toList "ca".toList "a".toList
      "b".toList (by decide) (by decide) (by decide)⟩

/-! ## C5: minimum dwell duration -/

/-- What `logGazeState` does to `gaze_states`: nothing, or one retained record
at the end. -/
theorem logGazeState_appends (side : String) (t : Int) (s : State) :
    ∃ ext, (logGazeState side t s).gaze_states = s.gaze_states ++ ext ∧
      ext.length ≤ 1 ∧ ∀ r ∈ ext, r.Retained := by
  unfold logGazeState
  by_cases hside : s.lastGazeSide ≠ side
  · rw [if_pos hside]
    cases hlast : s.lastGazeTime with
    | none => exact ⟨[], by simp, by simp, by simp⟩
    | some last =>
      by_cases hu : s.lastGazeSide ≠ "unknown"
      · by_cases hd : t - last ≥ GAZE_MIN_DWELL_MS
        · refine ⟨[{ side := s.lastGazeSide, startTime := last, endTime := t,
                     duration := t - last }], ?_, by simp, ?_⟩
          · simp [hu, hd]
          · intro r hr
            rw [List.mem_singleton] at hr
            rw [hr]
            exact ⟨hd, rfl, hu⟩
        · exact ⟨[], by simp [hu, hd], by simp, by simp⟩
      · exact ⟨[], by simp [hu], by simp, by simp⟩
  · rw [if_neg hside]
    exact ⟨[], by simp, by simp, by simp⟩

/-- What `stopGaze` does to `gaze_states`: nothing, or one retained record at
the end. -/
theorem stopGaze_appends (t : Int) (s : State) :
    ∃ ext, (stopGaze t s).gaze_states = s.gaze_states ++ ext ∧
      ext.length ≤ 1 ∧ ∀ r ∈ ext, r.Retained := by
  unfold stopGaze
  cases hlast : s.lastGazeTime with
  | none =>
    refine ⟨[], ?_, by simp, by simp⟩
    cases hg : s.gazeTimer <;> simp [hlast]
  | some last =>
    by_cases hu : s.lastGazeSide ≠ "unknown"
    · by_cases hd : t - last ≥ GAZE_MIN_DWELL_MS
      · refine ⟨[{ side := s.lastGazeSide, startTime := last, endTime := t,
                   duration := t - last }], ?_, by simp, ?_⟩
        · cases hg : s.gazeTimer <;> simp [hlast, hu, hd]
        · intro r hr
          rw [List.mem_singleton] at hr
          rw [hr]
          exact ⟨hd, rfl, hu⟩
      · refine ⟨[], ?_, by simp, by simp⟩
        cases hg : s.gazeTimer <;> simp [hlast, hu, hd]
    · refine ⟨[], ?_, by simp, by simp⟩
      cases hg : s.gazeTimer <;> simp [hlast, hu]

theorem gazeCall_appends (c : GazeCall) (s : State) :
    ∃ ext, (c.run s).gaze_states = s.gaze_states ++ ext ∧
      ext.length ≤ 1 ∧ ∀ r ∈ ext, r.Retained := by
  cases c with
  | log side t => exact logGazeState_appends side t s
  | stop t => exact stopGaze_appends t s

/-- Calls on the dwell segmenter keep every record of `gaze_states` retained. -/
theorem runGaze_retained (calls : List GazeCall) :
    ∀ s : State, (∀ r ∈ s.gaze_states, r.Retained) →
      ∀ r ∈ (runGaze calls s).gaze_states, r.Retained := by
  induction calls with
  | nil => intro s hs; exact hs
  | cons c cs ih =>
    intro s hs
    have hstep : runGaze (c :: cs) s = runGaze cs (c.run s) := rfl
    rw [hstep]
    apply ih
    obtain ⟨ext, he, _, hg⟩ := gazeCall_appends c s
    intro r hr
    rw [he, List.mem_append] at hr
    rcases hr with hr | hr
    · exact hs r hr
    · exact hg r hr

/-- C5. Minimum dwell duration: after any sequence of `logGazeState(side, t)`
and `stopGaze` calls from the initial state, with arbitrary sides and clock
readings, every record of `gaze_states` has `duration ≥ GAZE_MIN_DWELL_MS`
(120), `duration = endTime - startTime` and a side other than `"unknown"`;
and from any state, one call only appends to `gaze_states`, at most one
record, which has these three properties. -/
theorem gaze_states_min_dwell (calls : List GazeCall) :
    GAZE_MIN_DWELL_MS = 120 ∧
    (∀ r ∈ (runGaze calls State.init).gaze_states,
      r.duration ≥ GAZE_MIN_DWELL_MS ∧ r.duration = r.endTime - r.startTime ∧
        r.side ≠ "unknown") ∧
    (∀ (s : State) (c : GazeCall),
      ∃ ext, (c.run s).gaze_states = s.gaze_states ++ ext ∧ ext.length ≤ 1 ∧
        ∀ r ∈ ext, r.duration ≥ GAZE_MIN_DWELL_MS ∧
          r.duration = r.endTime - r.startTime ∧ r.side ≠ "unknown") := by
  refine ⟨rfl, ?_, ?_⟩
  · exact runGaze_retained calls State.init (fun r hr => absurd hr (List.not_mem_nil r))
  · intro s c
    exact gazeCall_appends c s

/-! ## C6: pause detection on a tick -/

/-- C6. Pause detection on a tick: in a started session with
`lastInputTime = L`, the pause-checker tick at clock reading `now` sets
`pauseActive = true` and `pauseStart = L` (and nothing else) when the tracker
is not paused and `now - L ≥ PAUSE_THRESHOLD_MS` (2000); in every other case
it leaves the state as it is; it never touches a buffer. A gap of exactly 2000
triggers and a gap of 1999 does not: after activity at 0, the tick at 2000
gives a paused tracker with `pauseStart = 0`, the tick at 1999 changes
nothing. -/
theorem pauseTick_detects (s : State) (L now : Int)
    (hs : s.started = true) (hL : s.lastInputTime = some L) :
    PAUSE_THRESHOLD_MS = 2000 ∧
    ((s.pauseActive = false ∧ now - L ≥ PAUSE_THRESHOLD_MS) →
      pauseTick now s = { s with pauseActive := true, pauseStart := some L }) ∧
    (¬ (s.pauseActive = false ∧ now - L ≥ PAUSE_THRESHOLD_MS) →
      pauseTick now s = s) ∧
    ((pauseTick now s).keystrokes = s.keystrokes ∧
      (pauseTick now s).textchanges = s.textchanges ∧
      (pauseTick now s).pauses = s.pauses ∧
      (pauseTick now s).gaze = s.gaze ∧
      (pauseTick now s).gaze_states = s.gaze_states) ∧
    ((pauseTick 2000 activeAt0).pauseActive = true ∧
      (pauseTick 2000 activeAt0).pauseStart = some 0 ∧
      pauseTick 1999 activeAt0 = activeAt0) := by
  have hunf : pauseTick now s =
      if !s.pauseActive && decide (now - L ≥ PAUSE_THRESHOLD_MS) then
        { s with pauseActive := true, pauseStart := some L }
      else s := by
    unfold pauseTick
    simp [hs, hL]
  refine ⟨rfl, ?_, ?_, ?_, by decide, by decide, by decide⟩
  · intro hc
    rw [hunf]
    simp [hc.1, hc.2]
  · intro hc
    rw [hunf]
    by_cases hp : s.pauseActive = false
    · have hg : ¬ now - L ≥ PAUSE_THRESHOLD_MS := fun hg => hc ⟨hp, hg⟩
      simp [hp, hg]
    · simp [hp]
  · rw [hunf]
    split <;> exact ⟨rfl, rfl, rfl, rfl, rfl⟩

/-- C6 at the session `activeAt0` (last input at 0) and the tick at 2000. -/
theorem pauseTick_detects_witness :
    activeAt0.started = true ∧ activeAt0.lastInputTime = some 0 ∧
    pauseTick 2000 activeAt0 = { activeAt0 with pauseActive := true, pauseStart := some 0 } :=
  ⟨by decide, by decide,
    (pauseTick_detects activeAt0 0 2000 (by decide) (by decide)).2.1
      ⟨by decide, by decide⟩⟩

/-! ## The pause tracker inside `onInput` -/

/-- The tracker part of `onInput` when a writer is set. -/
theorem onInput_tracker (s : State) (t : Int) (el : Element) (hw : s.writer ≠ none) :
    (onInput t el s).pauses =
      (if s.pauseActive then
        s.pauses ++ [{ startTime := s.pauseStart, endTime := t,
                       duration := t - toNumber s.pauseStart,
                       cursorIndexAtPause := some el.selectionStart }]
      else s.pauses) ∧
    (onInput t el s).pauseActive = false ∧
    (onInput t el s).pauseStart = (if s.pauseActive then none else s.pauseStart) ∧
    (onInput t el s).lastInputTime = some t ∧
    (onInput t el s).textPrev = el.value := by
  unfold onInput
  cases hwr : s.writer with
  | none => exact absurd hwr hw
  | some w =>
    cases hd : computeDiff s.textPrev el.value <;>
      cases hp : s.pauseActive <;> simp [hp, hd]

/-! ## C8: stopLogging on an inactive session -/

theorem stopLogging_inactive (env : StopEnv) (s : State) (h : s.started = false) :
    stopLogging env s = (none, s) := by
  unfold stopLogging
  simp [h]

/-- Function `stopGaze` in one step: the timer is cleared, the closing record
(if any) is appended, the dwell state is reset. -/
theorem stopGaze_eq (t : Int) (s : State) :
    stopGaze t s =
      { s with gazeTimer := none
               gaze_states := s.gaze_states ++ closingSegment t s
               lastGazeSide := "unknown"
               lastGazeTime := none } := by
  obtain ⟨f1, f2, f3, f4, f5, f6, gt, side, last, f10, f11, f12, f13, f14, f15, f16, f17⟩ := s
  cases gt <;> cases last with
    | none => simp [stopGaze, closingSegment]
    | some l =>
      by_cases hu : side = "unknown"
      · simp [stopGaze, closingSegment, hu]
      · by_cases hd : GAZE_MIN_DWELL_MS ≤ t - l
        · simp [stopGaze, closingSegment, hu, hd]
        · simp [stopGaze, closingSegment, hu, hd]

theorem length_closingSegment (t : Int) (s : State) :
    (closingSegment t s).length ≤ 1 := by
  unfold closingSegment
  cases s.lastGazeTime with
  | none => simp
  | some last => dsimp only; split <;> simp

theorem length_closingPause (env : StopEnv) (s : State) :
    (closingPause env s).length ≤ 1 := by
  unfold closingPause
  cases s.pauseStart with
  | none => simp
  | some ps => dsimp only; split <;> simp

theorem stopPauseChecker_eq (s : State) :
    stopPauseChecker s = { s with pauseChecker := none } := by
  obtain ⟨f1, f2, f3, f4, f5, f6, f7, f8, f9, f10, f11, f12, f13, f14, f15, f16, pc⟩ := s
  cases pc <;> rfl

/-- The payload `stopLogging` returns on a started session. -/
theorem stopLogging_payload (env : StopEnv) (s : State) (h : s.started = true) :
    (stopLogging env s).1 =
      some { info := { version := "etl-1.0", startedAt := s.startTime, endedAt := env.now,
                       pauseThresholdMs := PAUSE_THRESHOLD_MS,
                       gazeSampleEveryMs := GAZE_SAMPLE_EVERY_MS }
             keystrokes := s.keystrokes
             textchanges := s.textchanges
             pauses := s.pauses ++ closingPause env s
             gaze_raw := s.gaze
             gaze_states := s.gaze_states ++ closingSegment env.gazeNow s } := by
  obtain ⟨f1, f2, f3, pa, ps, f6, f7, f8, f9, f10, f11, f12, f13, f14, f15, f16, f17⟩ := s
  simp only at h
  subst h
  cases ps <;> cases pa <;>
    simp [stopLogging, stopGaze_eq, stopPauseChecker_eq, closingPause, closingSegment]

/-- The state `stopLogging` leaves behind on a started session: stopped, with
the five buffers empty. -/
theorem stopLogging_after (env : StopEnv) (s : State) (h : s.started = true) :
    (stopLogging env s).2.started = false ∧
    (stopLogging env s).2.keystrokes = [] ∧
    (stopLogging env s).2.textchanges = [] ∧
    (stopLogging env s).2.pauses = [] ∧
    (stopLogging env s).2.gaze = [] ∧
    (stopLogging env s).2.gaze_states = [] := by
  obtain ⟨f1, f2, f3, pa, ps, f6, f7, f8, f9, f10, f11, f12, f13, f14, f15, f16, f17⟩ := s
  simp only at h
  subst h
  cases ps <;> cases pa <;>
    simp [stopLogging, stopGaze_eq, stopPauseChecker_eq]

/-- C8. Method `stopLogging` on an inactive session: with `started = false` it
returns `null` and leaves the state as it is; hence on a started session the
first of two calls in a row returns a payload and the second returns `null`
and changes nothing. -/
theorem stopLogging_twice (env1 env2 : StopEnv) (s : State) :
    (s.started = false → stopLogging env1 s = (none, s)) ∧
    (s.started = true →
      (stopLogging env1 s).1 ≠ none ∧
      stopLogging env2 (stopLogging env1 s).2 = (none, (stopLogging env1 s).2)) := by
  refine ⟨stopLogging_inactive env1 s, ?_⟩
  intro h
  refine ⟨?_, ?_⟩
  · rw [stopLogging_payload env1 s h]
    exact Option.some_ne_none _
  · exact stopLogging_inactive env2 _ (stopLogging_after env1 s h).1

/-- C8 at the started session `activeAt0`, stopped twice at 3000. -/
theorem stopLogging_twice_witness :
    activeAt0.started = true ∧
    (stopLogging stopEnv3000 activeAt0).1 ≠ none ∧
    stopLogging stopEnv3000 (stopLogging stopEnv3000 activeAt0).2
      = (none, (stopLogging stopEnv3000 activeAt0).2) ∧
    State.init.started = false ∧
    stopLogging stopEnv3000 State.init = (none, State.init) :=
  have h := stopLogging_twice stopEnv3000 stopEnv3000 activeAt0
  have h0 := stopLogging_twice stopEnv3000 stopEnv3000 State.init
  ⟨by decide, (h.2 (by decide)).1, (h.2 (by decide)).2, by decide, h0.1 (by decide)⟩

/-! ## C9: startLogging on an active session -/

/-- C9. Method `startLogging` on an active session is a no-op: with
`started = true` the state after the call is the state before it, whatever
the environment; in particular the five buffers, `startTime`,
`lastInputTime`, `textPrev`, the pause state and the dwell state are kept. -/
theorem startLogging_active (env : StartEnv) (s : State) (h : s.started = true) :
    startLogging env s = s ∧
    (startLogging env s).keystrokes = s.keystrokes ∧
    (startLogging env s).textchanges = s.textchanges ∧
    (startLogging env s).pauses = s.pauses ∧
    (startLogging env s).gaze = s.gaze ∧
    (startLogging env s).gaze_states = s.gaze_states ∧
    (startLogging env s).startTime = s.startTime ∧
    (startLogging env s).lastInputTime = s.lastInputTime ∧
    (startLogging env s).textPrev = s.textPrev ∧
    (startLogging env s).pauseActive = s.pauseActive ∧
    (startLogging env s).pauseStart = s.pauseStart ∧
    (startLogging env s).lastGazeSide = s.lastGazeSide ∧
    (startLogging env s).lastGazeTime = s.lastGazeTime := by
  have e : startLogging env s = s := by
    unfold startLogging
    rw [if_pos h]
  rw [e]
  exact ⟨rfl, rfl, rfl, rfl, rfl, rfl, rfl, rfl, rfl, rfl, rfl, rfl, rfl⟩

/-- C9 at the session `pauseTick 2000 activeAt0`, restarted with an environment
whose clock reads 0. -/
theorem startLogging_active_witness :
    (pauseTick 2000 activeAt0).started = true ∧
    startLogging startEnv0 (pauseTick 2000 activeAt0) = pauseTick 2000 activeAt0 :=
  ⟨by decide, (startLogging_active startEnv0 (pauseTick 2000 activeAt0) (by decide)).1⟩

/-! ## C10: stopLogging captures and resets -/

/-- C10. Method `stopLogging` on a started session, with clock reading
`env.now` (and `env.gazeNow` inside `stopGaze`): it returns a payload whose
`meta` has `startedAt = startTime` and `endedAt = env.now`; `keystrokes`,
`textchanges` and `gaze_raw` are the buffers held before the call; `pauses`
and `gaze_states` are the buffers before the call followed by at most one
record each, closed at the clock reading of the call; afterwards
`started = false` and the five buffers are empty. -/
theorem stopLogging_captures (env : StopEnv) (s : State) (h : s.started = true) :
    ∃ payload extraPauses extraGaze,
      (stopLogging env s).1 = some payload ∧
      payload.info.startedAt = s.startTime ∧
      payload.info.endedAt = env.now ∧
      payload.keystrokes = s.keystrokes ∧
      payload.textchanges = s.textchanges ∧
      payload.gaze_raw = s.gaze ∧
      payload.pauses = s.pauses ++ extraPauses ∧
      extraPauses.length ≤ 1 ∧
      (∀ r ∈ extraPauses, r.startTime = s.pauseStart ∧ r.endTime = env.now) ∧
      payload.gaze_states = s.gaze_states ++ extraGaze ∧
      extraGaze.length ≤ 1 ∧
      (∀ r ∈ extraGaze, r.side = s.lastGazeSide ∧ some r.startTime = s.lastGazeTime ∧
        r.endTime = env.gazeNow) ∧
      (stopLogging env s).2.started = false ∧
      (stopLogging env s).2.keystrokes = [] ∧
      (stopLogging env s).2.textchanges = [] ∧
      (stopLogging env s).2.pauses = [] ∧
      (stopLogging env s).2.gaze = [] ∧
      (stopLogging env s).2.gaze_states = [] := by
  refine ⟨_, closingPause env s, closingSegment env.gazeNow s,
    stopLogging_payload env s h, rfl, rfl, rfl, rfl, rfl, rfl,
    length_closingPause env s, ?_, rfl, length_closingSegment _ s, ?_,
    stopLogging_after env s h⟩
  · intro r hr
    unfold closingPause at hr
    cases hps : s.pauseStart with
    | none => rw [hps] at hr; exact absurd hr (List.not_mem_nil r)
    | some ps =>
      rw [hps] at hr
      dsimp only at hr
      split at hr
      · rw [List.mem_singleton] at hr
        rw [hr]
        exact ⟨rfl, rfl⟩
      · exact absurd hr (List.not_mem_nil r)
  · intro r hr
    unfold closingSegment at hr
    cases hl : s.lastGazeTime with
    | none => rw [hl] at hr; exact absurd hr (List.not_mem_nil r)
    | some last =>
      rw [hl] at hr
      dsimp only at hr
      split at hr
      · rw [List.mem_singleton] at hr
        rw [hr]
        exact ⟨rfl, rfl, rfl⟩
      · exact absurd hr (List.not_mem_nil r)

/-- C10 at the paused session `pauseTick 2000 activeAt0`, stopped at 3000: the
payload holds the one pause closed at 3000. -/
theorem stopLogging_captures_witness :
    (pauseTick 2000 activeAt0).started = true ∧
    (∃ payload, (stopLogging stopEnv3000 (pauseTick 2000 activeAt0)).1 = some payload ∧
      payload.info.endedAt = 3000) ∧
    (stopLogging stopEnv3000 (pauseTick 2000 activeAt0)).2.started = false :=
  match stopLogging_captures stopEnv3000 (pauseTick 2000 activeAt0) (by decide) with
  | ⟨payload, _, _, hp, _, he, _, _, _, _, _, _, _, _, _, hs, _⟩ =>
    ⟨by decide, ⟨payload, hp, he⟩, hs⟩

/-! ## C12: prefix and suffix never overlap -/

/-- C12. Prefix/suffix bound in `computeDiff`: for all texts `a`, `b` the
prefix length `i` and the suffix length `j` it computes satisfy
`i + j ≤ min(|a|, |b|)`; the first `i` code units of `a` and `b` are equal and
so are the last `j`; hence `a` is its first `i` units, the region
`a[i..|a|-j)` and its last `j` units, and `b` is the same prefix, the region
`b[i..|b|-j)` and the same suffix. -/
theorem computeDiff_prefix_suffix (a b : JSString) :
    diffPrefix a b + diffSuffix a b ≤ min a.length b.length ∧
    a.take (diffPrefix a b) = b.take (diffPrefix a b) ∧
    a.drop (a.length - diffSuffix a b) = b.drop (b.length - diffSuffix a b) ∧
    (a.drop (a.length - diffSuffix a b)).length = diffSuffix a b ∧
    diffPrefix a b ≤ a.length - diffSuffix a b ∧
    diffPrefix a b ≤ b.length - diffSuffix a b ∧
    a = a.take (diffPrefix a b)
          ++ slice a (diffPrefix a b) (a.length - diffSuffix a b)
          ++ a.drop (a.length - diffSuffix a b) ∧
    b = a.take (diffPrefix a b)
          ++ slice b (diffPrefix a b) (b.length - diffSuffix a b)
          ++ a.drop (a.length - diffSuffix a b) := by
  have h := diffPrefix_add_diffSuffix_le a b
  have h3 : min a.length b.length ≤ a.length := Nat.min_le_left _ _
  have h4 : min a.length b.length ≤ b.length := Nat.min_le_right _ _
  refine ⟨h, take_diffPrefix a b, drop_diffSuffix a b, ?_, by omega, by omega,
    old_decomp a b, ?_⟩
  · rw [List.length_drop]
    omega
  · exact (new_eq_old_parts a b).symm

/-! ## C20: insert/delete duality -/

theorem prefixLoop_comm (a b : JSString) (m : Nat) :
    ∀ (fuel i : Nat), prefixLoop a b m fuel i = prefixLoop b a m fuel i := by
  intro fuel
  induction fuel with
  | zero => intro i; rfl
  | succ n ih =>
    intro i
    unfold prefixLoop
    by_cases hc : i < m ∧ a[i]? = b[i]?
    · rw [if_pos hc, if_pos ⟨hc.1, hc.2.symm⟩]
      exact ih (i + 1)
    · rw [if_neg hc, if_neg (fun hc2 => hc ⟨hc2.1, hc2.2.symm⟩)]

theorem suffixLoop_comm (a b : JSString) (m i : Nat) :
    ∀ (fuel j : Nat), suffixLoop a b m i fuel j = suffixLoop b a m i fuel j := by
  intro fuel
  induction fuel with
  | zero => intro j; rfl
  | succ n ih =>
    intro j
    unfold suffixLoop
    by_cases hc : j < m - i ∧ a[a.length - 1 - j]? = b[b.length - 1 - j]?
    · rw [if_pos hc, if_pos ⟨hc.1, hc.2.symm⟩]
      exact ih (j + 1)
    · rw [if_neg hc, if_neg (fun hc2 => hc ⟨hc2.1, hc2.2.symm⟩)]

theorem diffPrefix_comm (a b : JSString) : diffPrefix a b = diffPrefix b a := by
  unfold diffPrefix
  rw [Nat.min_comm b.length a.length]
  exact prefixLoop_comm a b _ _ 0

theorem diffSuffix_comm (a b : JSString) : diffSuffix a b = diffSuffix b a := by
  unfold diffSuffix
  rw [Nat.min_comm b.length a.length, diffPrefix_comm b a]
  exact suffixLoop_comm a b _ _ _ 0

/-- The old region of the reversed diff is the new region of the diff. -/
theorem oldMid_swap (a b : JSString) : oldMid b a = newMid a b := by
  unfold oldMid newMid
  rw [diffPrefix_comm b a, diffSuffix_comm b a]

theorem newMid_swap (a b : JSString) : newMid b a = oldMid a b := by
  unfold oldMid newMid
  rw [diffPrefix_comm b a, diffSuffix_comm b a]

/-- The diff of `b` against `a` is the diff of `a` against `b` with the roles
of the two regions exchanged. -/
theorem computeDiff_swap (a b : JSString) :
    computeDiff b a = (computeDiff a b).map EditOp.swap := by
  by_cases h : a = b
  · have h1 : computeDiff a b = none := by
      unfold computeDiff
      rw [if_pos h]
    have h2 : computeDiff b a = none := by
      unfold computeDiff
      rw [if_pos h.symm]
    rw [h1, h2]
    rfl
  · have h' : b ≠ a := fun e => h e.symm
    by_cases ho : oldMid a b = []
    · rw [computeDiff_insert a b h ho,
        computeDiff_delete b a h' (by rw [newMid_swap a b]; exact ho),
        oldMid_swap a b, diffPrefix_comm b a]
      rfl
    · by_cases hn : newMid a b = []
      · rw [computeDiff_delete a b h hn,
          computeDiff_insert b a h' (by rw [oldMid_swap a b]; exact hn),
          newMid_swap a b, diffPrefix_comm b a]
        rfl
      · rw [computeDiff_replace a b h ho hn,
          computeDiff_replace b a h' (by rw [oldMid_swap a b]; exact hn)
            (by rw [newMid_swap a b]; exact ho),
          oldMid_swap a b, newMid_swap a b, diffPrefix_comm b a]
        rfl

/-- C20. Insert/delete duality of `computeDiff`: `computeDiff(a, b)` is an
insert with fields `(start, end, nChars, text)` if and only if
`computeDiff(b, a)` is a delete with the same four fields; `computeDiff(a, b)`
is a replace with `(start, delText, insText)` if and only if
`computeDiff(b, a)` is a replace with the same `start` and the two texts
exchanged. -/
theorem computeDiff_duality (a b : JSString) :
    (∀ st en n text,
      computeDiff a b = some (EditOp.insert st en n text) ↔
        computeDiff b a = some (EditOp.delete st en n text)) ∧
    (∀ st d i,
      (∃ en n m, computeDiff a b = some (EditOp.replace st en n m d i)) ↔
        (∃ en n m, computeDiff b a = some (EditOp.replace st en n m i d))) := by
  have hab := computeDiff_swap a b
  have hba := computeDiff_swap b a
  refine ⟨?_, ?_⟩
  · intro st en n text
    constructor
    · intro h
      rw [hab, h]
      rfl
    · intro h
      rw [hba, h]
      rfl
  · intro st d i
    constructor
    · rintro ⟨en, n, m, h⟩
      rw [hab, h]
      exact ⟨_, _, _, rfl⟩
    · rintro ⟨en, n, m, h⟩
      rw [hba, h]
      exact ⟨_, _, _, rfl⟩

/-! ## C14 and C15: the dwell transition rule and finalization -/

theorem closingSegment_kept (t st : Int) (s : State)
    (hl : s.lastGazeTime = some st) (hu : s.lastGazeSide ≠ "unknown")
    (hd : t - st ≥ GAZE_MIN_DWELL_MS) :
    closingSegment t s =
      [{ side := s.lastGazeSide, startTime := st, endTime := t, duration := t - st }] := by
  unfold closingSegment
  rw [hl]
  dsimp only
  rw [if_pos ⟨hu, hd⟩]

theorem closingSegment_dropped (t : Int) (s : State)
    (h : ¬ ∃ st, s.lastGazeTime = some st ∧ s.lastGazeSide ≠ "unknown" ∧
      t - st ≥ GAZE_MIN_DWELL_MS) :
    closingSegment t s = [] := by
  unfold closingSegment
  cases hl : s.lastGazeTime with
  | none => rfl
  | some st =>
    dsimp only
    rw [if_neg]
    intro hc
    exact h ⟨st, hl, hc.1, hc.2⟩

/-- Function `logGazeState` on a changed side, in one step. -/
theorem logGazeState_changed (side : String) (t : Int) (s : State)
    (h : s.lastGazeSide ≠ side) :
    logGazeState side t s =
      { s with gaze_states := s.gaze_states ++ closingSegment t s
               lastGazeSide := side
               lastGazeTime := some t } := by
  obtain ⟨f1, f2, f3, f4, f5, f6, f7, c, last, f10, f11, f12, f13, f14, f15, f16, f17⟩ := s
  simp only at h
  cases last with
  | none => simp [logGazeState, closingSegment, h]
  | some l =>
    by_cases hu : c = "unknown"
    · subst hu
      simp [logGazeState, closingSegment, h]
    · by_cases hd : GAZE_MIN_DWELL_MS ≤ t - l
      · simp [logGazeState, closingSegment, h, hu, hd]
      · simp [logGazeState, closingSegment, h, hu, hd]

/-- C14. Dwell transition rule: from the dwell state
`(lastGazeSide = c, lastGazeTime = st)`, `logGazeState(side, t)` leaves the
whole state as it is when `side = c`; when `side` differs from `c` it appends
exactly the one segment `{side: c, startTime: st, endTime: t, duration: t - st}`
if `c` is not `"unknown"` and `t - st ≥ 120`, appends nothing otherwise (also
when no start time is set), and in both sub-cases sets `lastGazeSide = side`,
`lastGazeTime = t` and touches nothing else. From the initial state the samples
`(left,0), (left,50), (right,80), (left,250)` leave `gaze_states` equal to
`[{right, 80, 250, 170}]` with open segment `(left, 250)`. -/
theorem logGazeState_rule (side : String) (t : Int) (s : State) :
    (side = s.lastGazeSide → logGazeState side t s = s) ∧
    (side ≠ s.lastGazeSide →
      (∀ st, s.lastGazeTime = some st → s.lastGazeSide ≠ "unknown" →
        t - st ≥ GAZE_MIN_DWELL_MS →
        logGazeState side t s =
          { s with gaze_states := s.gaze_states ++
                     [{ side := s.lastGazeSide, startTime := st, endTime := t,
                        duration := t - st }]
                   lastGazeSide := side
                   lastGazeTime := some t }) ∧
      ((¬ ∃ st, s.lastGazeTime = some st ∧ s.lastGazeSide ≠ "unknown" ∧
          t - st ≥ GAZE_MIN_DWELL_MS) →
        logGazeState side t s =
          { s with lastGazeSide := side, lastGazeTime := some t })) ∧
    GAZE_MIN_DWELL_MS = 120 ∧
    (runGaze dwellSamples State.init).gaze_states =
      [{ side := "right", startTime := 80, endTime := 250, duration := 170 }] ∧
    (runGaze dwellSamples State.init).lastGazeSide = "left" ∧
    (runGaze dwellSamples State.init).lastGazeTime = some 250 := by
  refine ⟨?_, ?_, rfl, by decide, by decide, by decide⟩
  · intro h
    unfold logGazeState
    rw [if_neg (fun hc => hc h.symm)]
  · intro h
    have hne : s.lastGazeSide ≠ side := fun hc => h hc.symm
    refine ⟨?_, ?_⟩
    · intro st hl hu hd
      rw [logGazeState_changed side t s hne, closingSegment_kept t st s hl hu hd]
    · intro hno
      rw [logGazeState_changed side t s hne, closingSegment_dropped t s hno,
        List.append_nil]

/-- C14 at the open segment `(right, 80)` and the sample `(left, 250)`. -/
theorem logGazeState_rule_witness :
    (logGazeState "left" 250 (runGaze (dwellSamples.take 3) State.init)).gaze_states =
      [{ side := "right", startTime := 80, endTime := 250, duration := 170 }] ∧
    logGazeState "right" 100 (runGaze (dwellSamples.take 3) State.init)
      = runGaze (dwellSamples.take 3) State.init := by
  have h := logGazeState_rule "left" 250 (runGaze (dwellSamples.take 3) State.init)
  have h2 := logGazeState_rule "right" 100 (runGaze (dwellSamples.take 3) State.init)
  refine ⟨?_, h2.1 (by decide)⟩
  rw [(h.2.1 (by decide)).1 80 (by decide) (by decide) (by decide)]
  decide

/-- C15. Dwell finalization: from the dwell state
`(lastGazeSide = c, lastGazeTime = st)`, `stopGaze` at clock reading `now`
appends exactly the one segment
`{side: c, startTime: st, endTime: now, duration: now - st}` when `c` is not
`"unknown"` and `now - st ≥ 120`, appends nothing otherwise (also when no
start time is set), and always ends with `lastGazeSide = "unknown"` and
`lastGazeTime = null`; a second `stopGaze` right after appends nothing. -/
theorem stopGaze_rule (now now2 : Int) (s : State) :
    (∀ st, s.lastGazeTime = some st → s.lastGazeSide ≠ "unknown" →
      now - st ≥ GAZE_MIN_DWELL_MS →
      (stopGaze now s).gaze_states = s.gaze_states ++
        [{ side := s.lastGazeSide, startTime := st, endTime := now,
           duration := now - st }]) ∧
    ((¬ ∃ st, s.lastGazeTime = some st ∧ s.lastGazeSide ≠ "unknown" ∧
        now - st ≥ GAZE_MIN_DWELL_MS) →
      (stopGaze now s).gaze_states = s.gaze_states) ∧
    GAZE_MIN_DWELL_MS = 120 ∧
    (stopGaze now s).lastGazeSide = "unknown" ∧
    (stopGaze now s).lastGazeTime = none ∧
    (stopGaze now2 (stopGaze now s)).gaze_states = (stopGaze now s).gaze_states ∧
    stopGaze now2 (stopGaze now s) = stopGaze now s := by
  have h2 : closingSegment now2 (stopGaze now s) = [] := by
    rw [stopGaze_eq now s]
    rfl
  have h3 : stopGaze now2 (stopGaze now s) = stopGaze now s := by
    rw [stopGaze_eq now2 (stopGaze now s), h2, List.append_nil, stopGaze_eq now s]
  refine ⟨?_, ?_, rfl, ?_, ?_, ?_, h3⟩
  · intro st hl hu hd
    rw [stopGaze_eq, closingSegment_kept now st s hl hu hd]
  · intro hno
    rw [stopGaze_eq, closingSegment_dropped now s hno, List.append_nil]
  · rw [stopGaze_eq]
  · rw [stopGaze_eq]
  · rw [h3]

/-- C15 at the open segment `(left, 250)` and the clock reading 400. -/
theorem stopGaze_rule_witness :
    (stopGaze 400 (runGaze dwellSamples State.init)).gaze_states =
      [{ side := "right", startTime := 80, endTime := 250, duration := 170 },
       { side := "left", startTime := 250, endTime := 400, duration := 150 }] ∧
    (stopGaze 300 (runGaze dwellSamples State.init)).gaze_states =
      (runGaze dwellSamples State.init).gaze_states := by
  have h := stopGaze_rule 400 400 (runGaze dwellSamples State.init)
  have h2 := stopGaze_rule 300 300 (runGaze dwellSamples State.init)
  refine ⟨?_, ?_⟩
  · rw [h.1 250 (by decide) (by decide) (by decide)]
    decide
  · exact h2.2.1 (by decide)

/-! ## The pause tracker inside `stopLogging` -/

/-- The state `stopLogging` leaves behind on a started session, field by
field. -/
theorem stopLogging_state (env : StopEnv) (s : State) (h : s.started = true) :
    (stopLogging env s).2 =
      { s with started := false
               pauseActive := s.pauseActive && s.pauseStart.isNone
               pauseStart := if s.pauseActive then none else s.pauseStart
               gazeTimer := none
               lastGazeSide := "unknown"
               lastGazeTime := none
               keystrokes := []
               textchanges := []
               pauses := []
               gaze := []
               gaze_states := []
               pauseChecker := none } := by
  obtain ⟨f1, f2, f3, pa, ps, f6, f7, f8, f9, f10, f11, f12, f13, f14, f15, f16, f17⟩ := s
  simp only at h
  subst h
  cases ps <;> cases pa <;>
    simp [stopLogging, stopGaze_eq, stopPauseChecker_eq]

theorem closingPause_paused (env : StopEnv) (s : State) (ps : Int)
    (ha : s.pauseActive = true) (hs : s.pauseStart = some ps) :
    closingPause env s =
      [{ startTime := some ps, endTime := env.now, duration := env.now - ps,
         cursorIndexAtPause := s.writer.map (fun _ => env.selectionStart) }] := by
  unfold closingPause
  rw [hs]
  dsimp only
  rw [if_pos ha]

theorem closingPause_none (env : StopEnv) (s : State)
    (h : s.pauseActive = false ∨ s.pauseStart = none) :
    closingPause env s = [] := by
  unfold closingPause
  cases hs : s.pauseStart with
  | none => rfl
  | some ps =>
    dsimp only
    rcases h with h | h
    · rw [if_neg]
      rw [h]
      exact Bool.false_ne_true
    · rw [hs] at h
      exact absurd h (Option.some_ne_none ps)

/-! ## C17: replay of the edit log -/

theorem computeDiff_eq_none_iff (a b : JSString) : computeDiff a b = none ↔ a = b := by
  constructor
  · intro h
    by_contra hne
    rw [computeDiff_of_ne a b hne] at h
    split at h
    · exact Option.some_ne_none _ h
    · split at h <;> exact Option.some_ne_none _ h
  · intro h
    unfold computeDiff
    rw [if_pos h]

/-- Applying the op that `computeDiff` returns, by the replay rule, gives the
new text. -/
theorem applyOp_computeDiff (a b : JSString) (d : EditOp)
    (h : computeDiff a b = some d) : applyOp a d = b := by
  have hne : a ≠ b := by
    intro e
    rw [(computeDiff_eq_none_iff a b).mpr e] at h
    exact Option.some_ne_none _ h.symm
  have key := new_eq_old_parts a b
  have eo := diffPrefix_add_length_oldMid a b
  by_cases ho : oldMid a b = []
  · rw [computeDiff_insert a b hne ho] at h
    injection h with h
    subst h
    rw [ho] at eo
    show a.take (diffPrefix a b) ++ newMid a b ++ a.drop (diffPrefix a b) = b
    rw [← eo] at key
    exact key
  · by_cases hn : newMid a b = []
    · rw [computeDiff_delete a b hne hn] at h
      injection h with h
      subst h
      show a.take (diffPrefix a b) ++ a.drop (diffPrefix a b + (oldMid a b).length) = b
      rw [eo]
      rw [hn, List.append_nil] at key
      exact key
    · rw [computeDiff_replace a b hne ho hn] at h
      injection h with h
      subst h
      show a.take (diffPrefix a b) ++ newMid a b
        ++ a.drop (diffPrefix a b + (oldMid a b).length) = b
      rw [eo]
      exact key

/-- The edit-log part of `onInput` when a writer is set. -/
theorem onInput_textchanges (s : State) (t : Int) (el : Element) (hw : s.writer ≠ none) :
    (onInput t el s).textchanges =
      s.textchanges ++
        (match computeDiff s.textPrev el.value with
         | some d => [{ time := t, diff := d, cursorAfter := el.selectionStart }]
         | none => []) ∧
    (onInput t el s).textPrev = el.value ∧
    (onInput t el s).writer = s.writer := by
  unfold onInput
  cases hwr : s.writer with
  | none => exact absurd hwr hw
  | some w =>
    cases hd : computeDiff s.textPrev el.value <;>
      cases hp : s.pauseActive <;> simp [hp, hd, hwr]

theorem replay_append (s0 : JSString) (xs ys : List EditOp) :
    replay s0 (xs ++ ys) = replay (replay s0 xs) ys := by
  unfold replay
  rw [List.foldl_append]

theorem changing_cons (s0 : JSString) (e : Int × Element) (es : List (Int × Element)) :
    changing s0 (e :: es) =
      if s0 = e.2.value then changing e.2.value es else e :: changing e.2.value es := by
  rw [changing]

/-- The edit log after a sequence of `input` events, by induction on the
sequence. -/
theorem runInputs_log (evs : List (Int × Element)) :
    ∀ s : State, s.writer ≠ none →
      (runInputs evs s).textPrev = lastSnapshot s.textPrev evs ∧
      ∃ logged, (runInputs evs s).textchanges = s.textchanges ++ logged ∧
        logged.map TextChange.time = (changing s.textPrev evs).map Prod.fst ∧
        replay s.textPrev (logged.map TextChange.diff) = lastSnapshot s.textPrev evs := by
  induction evs with
  | nil =>
    intro s _
    exact ⟨rfl, [], by simp [runInputs], rfl, rfl⟩
  | cons e es ih =>
    intro s hw
    obtain ⟨h1, h2, h3⟩ := onInput_textchanges s e.1 e.2 hw
    have hw1 : (onInput e.1 e.2 s).writer ≠ none := by rw [h3]; exact hw
    obtain ⟨ih1, logged, ih2, ih3, ih4⟩ := ih (onInput e.1 e.2 s) hw1
    have hrun : runInputs (e :: es) s = runInputs es (onInput e.1 e.2 s) := rfl
    have hlast : lastSnapshot s.textPrev (e :: es) = lastSnapshot e.2.value es := rfl
    rw [h2] at ih1 ih3 ih4
    rw [hrun, hlast]
    refine ⟨ih1, ?_⟩
    cases hd : computeDiff s.textPrev e.2.value with
    | none =>
      have heq : s.textPrev = e.2.value := (computeDiff_eq_none_iff _ _).mp hd
      rw [hd] at h1
      refine ⟨logged, ?_, ?_, ?_⟩
      · rw [ih2, h1, List.append_nil]
      · rw [ih3, changing_cons, if_pos heq]
      · rw [heq]
        exact ih4
    | some d =>
      have hne : s.textPrev ≠ e.2.value := by
        intro heq
        rw [(computeDiff_eq_none_iff _ _).mpr heq] at hd
        exact Option.some_ne_none _ hd.symm
      rw [hd] at h1
      refine ⟨{ time := e.1, diff := d, cursorAfter := e.2.selectionStart } :: logged,
        ?_, ?_, ?_⟩
      · rw [ih2, h1, List.append_assoc]
        rfl
      · rw [List.map_cons, ih3, changing_cons, if_neg hne]
        rfl
      · rw [List.map_cons]
        show replay (applyOp s.textPrev d) (logged.map TextChange.diff) = _
        rw [applyOp_computeDiff _ _ d hd]
        exact ih4

/-- C17. Replay of the edit log: from a state with a writer set and the text
`s0` in `textPrev`, after any sequence of `input` events with snapshots
`s1, ..., sn`, `textPrev` is `sn`; the textchanges logged are, in order, one
for each event whose snapshot differs from the one before it and none for an
unchanged snapshot; and applying the logged ops in order to `s0` (insert
`text` at `start`; remove `old[start..start+nChars)`; replace
`old[start..start+nCharsDel)` by `insText`) yields `sn`. -/
theorem textchanges_replay (s : State) (evs : List (Int × Element))
    (hw : s.writer ≠ none) :
    (runInputs evs s).textPrev = lastSnapshot s.textPrev evs ∧
    ∃ logged, (runInputs evs s).textchanges = s.textchanges ++ logged ∧
      logged.length = (changing s.textPrev evs).length ∧
      logged.map TextChange.time = (changing s.textPrev evs).map Prod.fst ∧
      replay s.textPrev (logged.map TextChange.diff) = lastSnapshot s.textPrev evs := by
  obtain ⟨h1, logged, h2, h3, h4⟩ := runInputs_log evs s hw
  refine ⟨h1, logged, h2, ?_, h3, h4⟩
  have := congrArg List.length h3
  rw [List.length_map, List.length_map] at this
  exact this

/-- C17 at the session `activeAt0` (empty text) and the snapshots `"cat"`,
`"cat"`, `"cot"`: two textchanges are logged, at the clock readings 1 and 3. -/
theorem textchanges_replay_witness :
    activeAt0.writer ≠ none ∧
    (runInputs snapshotEvents activeAt0).textPrev = "cot".toList ∧
    ∃ logged, (runInputs snapshotEvents activeAt0).textchanges
        = activeAt0.textchanges ++ logged ∧
      logged.length = 2 ∧
      logged.map TextChange.time = [1, 3] ∧
      replay [] (logged.map TextChange.diff) = "cot".toList :=
  match textchanges_replay activeAt0 snapshotEvents (by decide) with
  | ⟨h1, logged, h2, h3, h4, h5⟩ => ⟨by decide, h1, logged, h2, h3, h4, h5⟩

/-! ## C19: dwell segments are ordered and disjoint -/

theorem mem_closingSegment (t : Int) (s : State) (r : GazeState)
    (h : r ∈ closingSegment t s) :
    ∃ l, s.lastGazeTime = some l ∧ r.startTime = l ∧ r.endTime = t ∧
      t - l ≥ GAZE_MIN_DWELL_MS := by
  unfold closingSegment at h
  cases hl : s.lastGazeTime with
  | none => rw [hl] at h; exact absurd h (List.not_mem_nil r)
  | some l =>
    rw [hl] at h
    dsimp only at h
    split at h
    · rename_i hc
      rw [List.mem_singleton] at h
      rw [h]
      exact ⟨l, rfl, rfl, rfl, hc.2⟩
    · exact absurd h (List.not_mem_nil r)

theorem dwellOrdered_append (s : State) (t T : Int) (hT : T ≤ t) (h : DwellOrdered s T) :
    List.Pairwise (fun r1 r2 : GazeState => r1.endTime ≤ r2.startTime)
      (s.gaze_states ++ closingSegment t s) ∧
    (∀ r ∈ s.gaze_states ++ closingSegment t s, r.startTime ≤ r.endTime) ∧
    (∀ r ∈ s.gaze_states ++ closingSegment t s, r.endTime ≤ t) := by
  obtain ⟨h1, h2, h3, h4⟩ := h
  refine ⟨?_, ?_, ?_⟩
  · rw [List.pairwise_append]
    refine ⟨h1, ?_, ?_⟩
    · have hlen := length_closingSegment t s
      cases hc : closingSegment t s with
      | nil => exact List.Pairwise.nil
      | cons x xs =>
        rw [hc] at hlen
        cases xs with
        | nil => exact List.pairwise_singleton _ _
        | cons y ys => simp at hlen
    · intro a ha b hb
      obtain ⟨l, hl, hs, _, _⟩ := mem_closingSegment t s b hb
      rw [hs]
      exact (h4 l hl).2 a ha
  · intro r hr
    rw [List.mem_append] at hr
    rcases hr with hr | hr
    · exact h2 r hr
    · obtain ⟨l, hl, hs, he, hd⟩ := mem_closingSegment t s r hr
      rw [hs, he]
      have : GAZE_MIN_DWELL_MS = 120 := rfl
      omega
  · intro r hr
    rw [List.mem_append] at hr
    rcases hr with hr | hr
    · exact le_trans (h3 r hr) hT
    · obtain ⟨l, hl, hs, he, hd⟩ := mem_closingSegment t s r hr
      rw [he]

/-- One call on the dwell segmenter at a clock reading `t ≥ T` keeps the
records ordered, now up to `t`. -/
theorem dwellOrdered_step (c : GazeCall) (s : State) (T : Int)
    (hT : T ≤ c.time) (h : DwellOrdered s T) : DwellOrdered (c.run s) c.time := by
  cases c with
  | log side t =>
    have hT1 : T ≤ t := hT
    show DwellOrdered (logGazeState side t s) t
    by_cases hs : s.lastGazeSide = side
    · have e : logGazeState side t s = s := by
        unfold logGazeState
        rw [if_neg (fun hc => hc hs)]
      rw [e]
      obtain ⟨h1, h2, h3, h4⟩ := h
      refine ⟨h1, h2, fun r hr => le_trans (h3 r hr) hT1, ?_⟩
      intro l hl
      exact ⟨le_trans (h4 l hl).1 hT1, (h4 l hl).2⟩
    · obtain ⟨a1, a2, a3⟩ := dwellOrdered_append s t T hT1 h
      rw [logGazeState_changed side t s hs]
      refine ⟨a1, a2, a3, ?_⟩
      intro l hl
      have hl1 : t = l := Option.some.inj hl
      rw [← hl1]
      exact ⟨le_refl t, a3⟩
  | stop t =>
    have hT1 : T ≤ t := hT
    show DwellOrdered (stopGaze t s) t
    obtain ⟨a1, a2, a3⟩ := dwellOrdered_append s t T hT1 h
    rw [stopGaze_eq]
    refine ⟨a1, a2, a3, ?_⟩
    intro l hl
    exact absurd hl (Option.noConfusion)

theorem dwellOrdered_run (calls : List GazeCall) :
    ∀ (s : State) (T : Int), DwellOrdered s T →
      nonDecreasingFrom T (calls.map GazeCall.time) →
      ∃ T2, DwellOrdered (runGaze calls s) T2 := by
  induction calls with
  | nil =>
    intro s T h _
    exact ⟨T, h⟩
  | cons c cs ih =>
    intro s T h hnd
    have hnd1 : T ≤ c.time ∧ nonDecreasingFrom c.time (cs.map GazeCall.time) := hnd
    have hstep : runGaze (c :: cs) s = runGaze cs (c.run s) := rfl
    rw [hstep]
    exact ih (c.run s) c.time (dwellOrdered_step c s T hnd1.1 h) hnd1.2

/-- C19. Dwell segments are ordered and disjoint: after any sequence of
`logGazeState` and `stopGaze` calls from the initial state whose clock readings
never go back, every record of `gaze_states` has `startTime ≤ endTime`, and of
any two records the later one starts no earlier than the earlier one ends (in
particular each record starts no earlier than the record before it ends). -/
theorem gaze_states_ordered (calls : List GazeCall)
    (h : nonDecreasing (calls.map GazeCall.time)) :
    (∀ r ∈ (runGaze calls State.init).gaze_states, r.startTime ≤ r.endTime) ∧
    List.Pairwise (fun r1 r2 : GazeState => r1.endTime ≤ r2.startTime)
      (runGaze calls State.init).gaze_states ∧
    List.Chain' (fun r1 r2 : GazeState => r1.endTime ≤ r2.startTime)
      (runGaze calls State.init).gaze_states := by
  have h0 : ∀ T, DwellOrdered State.init T := by
    intro T
    refine ⟨List.Pairwise.nil, ?_, ?_, ?_⟩
    · intro r hr; exact absurd hr (List.not_mem_nil r)
    · intro r hr; exact absurd hr (List.not_mem_nil r)
    · intro l hl; exact absurd hl (Option.noConfusion)
  have key : ∃ T2, DwellOrdered (runGaze calls State.init) T2 := by
    cases calls with
    | nil => exact ⟨0, h0 0⟩
    | cons c cs =>
      have hnd : nonDecreasingFrom c.time (cs.map GazeCall.time) := h
      exact dwellOrdered_run (c :: cs) State.init c.time (h0 c.time) ⟨le_refl _, hnd⟩
  obtain ⟨T2, k1, k2, _, _⟩ := key
  exact ⟨k2, k1, List.Pairwise.chain' k1⟩

/-- C19 at the samples `(left,0), (left,50), (right,80), (left,250)` followed by
`stopGaze` at 400. -/
theorem gaze_states_ordered_witness :
    nonDecreasing ((dwellSamples ++ [GazeCall.stop 400]).map GazeCall.time) ∧
    (runGaze (dwellSamples ++ [GazeCall.stop 400]) State.init).gaze_states.length = 2 ∧
    List.Pairwise (fun r1 r2 : GazeState => r1.endTime ≤ r2.startTime)
      (runGaze (dwellSamples ++ [GazeCall.stop 400]) State.init).gaze_states :=
  have hnd : nonDecreasing ((dwellSamples ++ [GazeCall.stop 400]).map GazeCall.time) :=
    ⟨by decide, by decide, by decide, by decide, trivial⟩
  ⟨hnd, by decide, (gaze_states_ordered (dwellSamples ++ [GazeCall.stop 400]) hnd).2.1⟩

/-! ## The handlers, field by field -/

theorem onKeydown_frame (key code : String) (t : Int) (el : Element) (s : State) :
    ∃ ks, onKeydown key code t el s = { s with keystrokes := ks } := by
  obtain ⟨f1, f2, f3, f4, f5, f6, f7, f8, f9, wr, f11, f12, f13, f14, f15, f16, f17⟩ := s
  cases wr with
  | none => exact ⟨f12, rfl⟩
  | some _ => exact ⟨_, rfl⟩

theorem gazeSample_frame (pred : Option (Int × Int)) (side : String) (t : Int) (s : State) :
    ∃ g gs sd lt, gazeSample pred side t s =
      { s with gaze := g, gaze_states := gs, lastGazeSide := sd, lastGazeTime := lt } := by
  cases pred with
  | none => exact ⟨s.gaze, s.gaze_states, s.lastGazeSide, s.lastGazeTime, rfl⟩
  | some xy =>
    obtain ⟨x, y⟩ := xy
    by_cases hs : s.lastGazeSide = side
    · refine ⟨s.gaze ++ [{ time := t, x := x, y := y, side := side }], s.gaze_states,
        s.lastGazeSide, s.lastGazeTime, ?_⟩
      show logGazeState side t _ = _
      unfold logGazeState
      rw [if_neg (fun hc => hc hs)]
    · refine ⟨s.gaze ++ [{ time := t, x := x, y := y, side := side }],
        s.gaze_states ++ closingSegment t s, side, some t, ?_⟩
      exact logGazeState_changed side t
        { s with gaze := s.gaze ++ [{ time := t, x := x, y := y, side := side }] } hs

theorem pauseTick_cases (t : Int) (s : State) :
    pauseTick t s = s ∨
    (s.started = true ∧ s.pauseActive = false ∧
      ∃ L, s.lastInputTime = some L ∧ t - L ≥ PAUSE_THRESHOLD_MS ∧
        pauseTick t s = { s with pauseActive := true, pauseStart := some L }) := by
  unfold pauseTick
  cases hs : s.started with
  | false => left; rfl
  | true =>
    cases hl : s.lastInputTime with
    | none => left; rfl
    | some L =>
      cases hp : s.pauseActive with
      | true => left; simp
      | false =>
        by_cases hg : t - L ≥ PAUSE_THRESHOLD_MS
        · right
          refine ⟨rfl, rfl, L, rfl, hg, ?_⟩
          simp [hg, hl]
        · left
          simp [hg]

theorem onInput_eq (t : Int) (el : Element) (s : State) (hw : s.writer ≠ none) :
    ∃ tc, onInput t el s =
      { s with textchanges := tc
               pauses := s.pauses ++
                 (if s.pauseActive then
                   [{ startTime := s.pauseStart, endTime := t,
                      duration := t - toNumber s.pauseStart,
                      cursorIndexAtPause := some el.selectionStart }]
                 else [])
               pauseActive := false
               pauseStart := if s.pauseActive then none else s.pauseStart
               lastInputTime := some t
               textPrev := el.value } := by
  obtain ⟨f1, f2, f3, pa, ps, f6, f7, f8, f9, wr, f11, f12, f13, f14, f15, f16, f17⟩ := s
  simp only at hw
  cases wr with
  | none => exact absurd rfl hw
  | some w =>
    cases hd : computeDiff f6 el.value with
    | none =>
      refine ⟨f13, ?_⟩
      cases pa <;> simp [onInput, hd]
    | some d =>
      refine ⟨f13 ++ [{ time := t, diff := d, cursorAfter := el.selectionStart }], ?_⟩
      cases pa <;> simp [onInput, hd]

theorem startLogging_idle (env : StartEnv) (s : State) (h : s.started = false) :
    startLogging env s =
      { s with writer := env.writer.map Prod.fst
               graph := env.graph
               textPrev := (match env.writer with
                            | none => s.textPrev
                            | some (_, el) => el.value)
               started := true
               startTime := some env.now
               lastInputTime := some env.now
               pauseChecker := some env.pauseTimer
               gazeTimer := if env.webgazer then some env.gazeTimer else s.gazeTimer
               gaze_states := if env.webgazer then
                   s.gaze_states ++ closingSegment env.gazeNow s
                 else s.gaze_states
               lastGazeSide := if env.webgazer then "unknown" else s.lastGazeSide
               lastGazeTime := if env.webgazer then none else s.lastGazeTime } := by
  obtain ⟨f1, f2, f3, f4, f5, f6, f7, f8, f9, f10, f11, f12, f13, f14, f15, f16, f17⟩ := s
  obtain ⟨ew, eg, en, ep, wg, egn, egt⟩ := env
  simp only at h
  subst h
  cases ew with
  | none =>
    cases wg <;>
      simp [startLogging, startGaze, stopGaze_eq, startPauseChecker, stopPauseChecker_eq,
        closingSegment]
  | some we =>
    obtain ⟨r, el⟩ := we
    cases wg <;>
      simp [startLogging, startGaze, stopGaze_eq, startPauseChecker, stopPauseChecker_eq,
        closingSegment]

/-! ## The invariant of the transition system -/

theorem Sys.inv_init : Sys.init.Inv := by
  refine ⟨?_, ?_, ?_, ?_⟩
  · intro h; exact absurd h (by decide)
  · decide
  · intro h; exact absurd h (by decide)
  · intro _; exact ⟨rfl, rfl, rfl, rfl⟩

theorem Sys.step_start (w : Sys) (env : StartEnv) :
    w.step (.start env) =
      if w.state.started then w
      else { w with state := startLogging env w.state,
                    listening := w.listening || env.writer.isSome } := rfl

theorem Sys.step_stop (w : Sys) (env : StopEnv) :
    w.step (.stop env) =
      if w.state.started then
        { w with state := (stopLogging env w.state).2,
                 listening := w.listening && !w.state.writer.isSome }
      else w := rfl

theorem Sys.step_keydown (w : Sys) (key code : String) (t : Int) (el : Element) :
    w.step (.keydown key code t el) =
      if w.listening then { w with state := onKeydown key code t el w.state } else w := rfl

theorem Sys.step_input (w : Sys) (t : Int) (el : Element) :
    w.step (.input t el) =
      if w.listening then { w with state := onInput t el w.state } else w := rfl

theorem Sys.step_tick (w : Sys) (t : Int) :
    w.step (.tick t) =
      if w.state.pauseChecker.isSome then { w with state := pauseTick t w.state }
      else w := rfl

theorem Sys.step_gazePoll (w : Sys) (t : Int) :
    w.step (.gazePoll t) =
      if w.state.gazeTimer.isSome then { w with pendingGaze := w.pendingGaze + 1 }
      else w := rfl

theorem Sys.step_gaze (w : Sys) (pred : Option (Int × Int)) (side : String) (t : Int) :
    w.step (.gaze pred side t) =
      if w.pendingGaze > 0 then
        { w with state := gazeSample pred side t w.state, pendingGaze := w.pendingGaze - 1 }
      else w := rfl

theorem Sys.inv_start (w : Sys) (env : StartEnv) (h : w.Inv) :
    (w.step (.start env)).Inv := by
  obtain ⟨h1, h2, h3, h4⟩ := h
  cases hs : w.state.started with
  | true =>
    have e : w.step (.start env) = w := by
      rw [Sys.step_start, if_pos hs]
    rw [e]
    exact ⟨h1, h2, h3, h4⟩
  | false =>
    have e : w.step (.start env) =
        { w with state := startLogging env w.state,
                 listening := w.listening || env.writer.isSome } := by
      rw [Sys.step_start, if_neg (by rw [hs]; exact Bool.false_ne_true)]
    have hl : w.listening = false := by
      cases hl : w.listening with
      | false => rfl
      | true =>
        have := (h1 hl).1
        rw [hs] at this
        exact absurd this Bool.false_ne_true
    have hp : w.state.pauseActive = false := by
      cases hp : w.state.pauseActive with
      | false => rfl
      | true =>
        have := (h3 hp).1
        rw [hs] at this
        exact absurd this Bool.false_ne_true
    rw [e, startLogging_idle env w.state hs, hl]
    refine ⟨?_, ?_, ?_, ?_⟩
    · intro hw
      refine ⟨rfl, ?_⟩
      cases hew : env.writer with
      | none => rw [hew] at hw; simp at hw
      | some we => exact Option.some_ne_none _
    · exact h2
    · intro hc
      have hc1 : w.state.pauseActive = true := hc
      rw [hp] at hc1
      exact absurd hc1 Bool.false_ne_true
    · intro hc
      simp at hc

theorem Sys.inv_stop (w : Sys) (env : StopEnv) (h : w.Inv) :
    (w.step (.stop env)).Inv := by
  obtain ⟨h1, h2, h3, h4⟩ := h
  cases hs : w.state.started with
  | false =>
    have e : w.step (.stop env) = w := by
      rw [Sys.step_stop, if_neg (by rw [hs]; exact Bool.false_ne_true)]
    rw [e]
    exact ⟨h1, h2, h3, h4⟩
  | true =>
    have e : w.step (.stop env) =
        { w with state := (stopLogging env w.state).2,
                 listening := w.listening && !w.state.writer.isSome } := by
      rw [Sys.step_stop, if_pos hs]
    have hp : (w.state.pauseActive && w.state.pauseStart.isNone) = false := by
      cases hpa : w.state.pauseActive with
      | false => rfl
      | true =>
        have hne := h2.mp hpa
        cases hps : w.state.pauseStart with
        | none => exact absurd hps hne
        | some ps => rfl
    have hq : (if w.state.pauseActive = true then none else w.state.pauseStart) = none := by
      cases hpa : w.state.pauseActive with
      | true => rfl
      | false =>
        have : ¬ w.state.pauseStart ≠ none := fun hne => by
          have := h2.mpr hne
          rw [hpa] at this
          exact absurd this Bool.false_ne_true
        simp only [Bool.false_eq_true, if_false]
        exact not_not.mp this
    rw [e, stopLogging_state env w.state hs, hp, hq]
    refine ⟨?_, ?_, ?_, ?_⟩
    · intro hl
      have hl1 : (w.listening && !w.state.writer.isSome) = true := hl
      cases hw : w.listening with
      | false => rw [hw] at hl1; simp at hl1
      | true =>
        have hne := (h1 hw).2
        cases hwr : w.state.writer with
        | none => exact absurd hwr hne
        | some r => rw [hw, hwr] at hl1; simp at hl1
    · exact ⟨fun hc => by simp at hc, fun hc => absurd rfl hc⟩
    · intro hc
      simp at hc
    · intro _
      exact ⟨rfl, rfl, rfl, rfl⟩

theorem Sys.inv_keydown (w : Sys) (key code : String) (t : Int) (el : Element)
    (h : w.Inv) : (w.step (.keydown key code t el)).Inv := by
  obtain ⟨h1, h2, h3, h4⟩ := h
  rw [Sys.step_keydown]
  cases hl : w.listening with
  | false => exact ⟨h1, h2, h3, h4⟩
  | true =>
    have hst := (h1 hl).1
    obtain ⟨ks, e⟩ := onKeydown_frame key code t el w.state
    rw [if_pos rfl, e]
    refine ⟨fun _ => h1 hl, h2, h3, ?_⟩
    intro hc
    have hc1 : w.state.started = false := hc
    rw [hst] at hc1
    exact absurd hc1 (Bool.noConfusion)

theorem Sys.inv_input (w : Sys) (t : Int) (el : Element) (h : w.Inv) :
    (w.step (.input t el)).Inv := by
  obtain ⟨h1, h2, h3, h4⟩ := h
  rw [Sys.step_input]
  cases hl : w.listening with
  | false => exact ⟨h1, h2, h3, h4⟩
  | true =>
    have hst := (h1 hl).1
    obtain ⟨tc, e⟩ := onInput_eq t el w.state (h1 hl).2
    have hq : (if w.state.pauseActive = true then none else w.state.pauseStart) = none := by
      cases hpa : w.state.pauseActive with
      | true => rfl
      | false =>
        have : ¬ w.state.pauseStart ≠ none := fun hne => by
          have := h2.mpr hne
          rw [hpa] at this
          exact absurd this Bool.false_ne_true
        simp only [Bool.false_eq_true, if_false]
        exact not_not.mp this
    rw [if_pos rfl, e, hq]
    refine ⟨fun _ => h1 hl, ?_, ?_, ?_⟩
    · exact ⟨fun hc => by simp at hc, fun hc => absurd rfl hc⟩
    · intro hc
      simp at hc
    · intro hc
      have hc1 : w.state.started = false := hc
      rw [hst] at hc1
      exact absurd hc1 (Bool.noConfusion)

theorem Sys.inv_tick (w : Sys) (t : Int) (h : w.Inv) : (w.step (.tick t)).Inv := by
  obtain ⟨h1, h2, h3, h4⟩ := h
  rw [Sys.step_tick]
  cases hc : w.state.pauseChecker.isSome with
  | false => exact ⟨h1, h2, h3, h4⟩
  | true =>
    rw [if_pos rfl]
    rcases pauseTick_cases t w.state with e | ⟨hst, hpa, L, hL, hg, e⟩
    · rw [e]
      exact ⟨h1, h2, h3, h4⟩
    · rw [e]
      refine ⟨h1, ?_, ?_, ?_⟩
      · exact ⟨fun _ => Option.some_ne_none L, fun _ => rfl⟩
      · intro _
        exact ⟨hst, hL.symm⟩
      · intro hc2
        have hc1 : w.state.started = false := hc2
        rw [hst] at hc1
        exact absurd hc1 (Bool.noConfusion)

theorem Sys.inv_gazePoll (w : Sys) (t : Int) (h : w.Inv) :
    (w.step (.gazePoll t)).Inv := by
  obtain ⟨h1, h2, h3, h4⟩ := h
  rw [Sys.step_gazePoll]
  cases w.state.gazeTimer.isSome with
  | false => exact ⟨h1, h2, h3, h4⟩
  | true => exact ⟨h1, h2, h3, h4⟩

theorem Sys.inv_gaze (w : Sys) (pred : Option (Int × Int)) (side : String) (t : Int)
    (h : w.Inv) : (w.step (.gaze pred side t)).Inv := by
  obtain ⟨h1, h2, h3, h4⟩ := h
  rw [Sys.step_gaze]
  by_cases hc : w.pendingGaze > 0
  · obtain ⟨g, gs, sd, lt, e⟩ := gazeSample_frame pred side t w.state
    rw [if_pos hc, e]
    exact ⟨h1, h2, h3, h4⟩
  · rw [if_neg hc]
    exact ⟨h1, h2, h3, h4⟩

/-- Every event keeps the invariant. -/
theorem Sys.inv_step (w : Sys) (e : Event) (h : w.Inv) : (w.step e).Inv := by
  cases e with
  | start env => exact Sys.inv_start w env h
  | stop env => exact Sys.inv_stop w env h
  | keydown key code t el => exact Sys.inv_keydown w key code t el h
  | input t el => exact Sys.inv_input w t el h
  | tick t => exact Sys.inv_tick w t h
  | gazePoll t => exact Sys.inv_gazePoll w t h
  | gaze pred side t => exact Sys.inv_gaze w pred side t h

/-- Every state reached from the initial one satisfies the invariant. -/
theorem Sys.inv_run (evs : List Event) : ∀ w : Sys, w.Inv → (Sys.run evs w).Inv := by
  induction evs with
  | nil => intro w h; exact h
  | cons e es ih =>
    intro w h
    exact ih (w.step e) (Sys.inv_step w e h)

/-! ## C18: pause-state consistency -/

/-- C18. Pause-state consistency: in every state reached from the initial one
by a sequence of `startLogging`, `stopLogging`, `keydown`, `input`, pause-tick
and gaze-sample events, `pauseActive` is true if and only if `pauseStart` is
non-null, and whenever `pauseActive` is true the session is started and
`pauseStart = lastInputTime`. -/
theorem pause_state_consistent (evs : List Event) :
    ((Sys.run evs Sys.init).state.pauseActive = true ↔
      (Sys.run evs Sys.init).state.pauseStart ≠ none) ∧
    ((Sys.run evs Sys.init).state.pauseActive = true →
      (Sys.run evs Sys.init).state.started = true ∧
      (Sys.run evs Sys.init).state.pauseStart
        = (Sys.run evs Sys.init).state.lastInputTime) := by
  have h := Sys.inv_run evs Sys.init Sys.inv_init
  exact ⟨h.paused_iff, h.paused_started⟩

/-! ## C13: every logged pause is at least the threshold long -/

theorem Pause.Ok.mono (T T2 : Int) (inputs inputs2 : List Int) (p : Pause)
    (h : p.Ok T inputs) (hT : T ≤ T2)
    (hi : ∀ u ∈ inputs2, u ∈ inputs ∨ T ≤ u) : p.Ok T2 inputs2 := by
  obtain ⟨h1, st, h2, h3, h4, h5⟩ := h
  refine ⟨le_trans h1 hT, st, h2, h3, h4, ?_⟩
  intro u hu hc
  rcases hi u hu with hin | hge
  · exact h5 u hin hc
  · have := hc.2
    omega

/-- A step that leaves the inputs, the payloads and the pause tracker alone
keeps the trace invariant. -/
theorem Trace.Inv.same (r : Trace) (T T2 : Int) (w : Sys) (h : r.Inv T) (hT : T ≤ T2)
    (hw : w.Inv)
    (h1 : w.state.started = r.sys.state.started)
    (h2 : w.state.lastInputTime = r.sys.state.lastInputTime)
    (h3 : w.state.pauseActive = r.sys.state.pauseActive)
    (h4 : w.state.pauses = r.sys.state.pauses) :
    Trace.Inv { sys := w, payloads := r.payloads, inputs := r.inputs } T2 := by
  refine ⟨hw, ?_, ?_, ?_, ?_, ?_⟩
  · intro u hu
    exact le_trans (h.inputs_le u hu) hT
  · intro hs
    have hs1 : w.state.started = true := hs
    rw [h1] at hs1
    obtain ⟨L, a, b, c⟩ := h.last_input hs1
    exact ⟨L, h2.trans a, le_trans b hT, c⟩
  · intro hp
    have hp1 : w.state.pauseActive = true := hp
    rw [h3] at hp1
    obtain ⟨L, a, b⟩ := h.paused_long hp1
    exact ⟨L, h2.trans a, le_trans b hT⟩
  · intro pl hpl p hp
    exact (h.exported pl hpl p hp).mono T T2 _ _ p hT (fun u hu => Or.inl hu)
  · intro p hp
    have hp1 : p ∈ w.state.pauses := hp
    rw [h4] at hp1
    exact (h.buffered p hp1).mono T T2 _ _ p hT (fun u hu => Or.inl hu)

theorem Trace.tstep_start (r : Trace) (env : StartEnv) :
    r.step (.start env) =
      { sys := r.sys.step (.start env), payloads := r.payloads, inputs := r.inputs } := by
  show Trace.mk _ (r.payloads ++ []) (r.inputs ++ []) = _
  rw [List.append_nil, List.append_nil]

theorem Trace.tstep_keydown (r : Trace) (key code : String) (t : Int) (el : Element) :
    r.step (.keydown key code t el) =
      { sys := r.sys.step (.keydown key code t el), payloads := r.payloads,
        inputs := r.inputs } := by
  show Trace.mk _ (r.payloads ++ []) (r.inputs ++ []) = _
  rw [List.append_nil, List.append_nil]

theorem Trace.tstep_tick (r : Trace) (t : Int) :
    r.step (.tick t) =
      { sys := r.sys.step (.tick t), payloads := r.payloads, inputs := r.inputs } := by
  show Trace.mk _ (r.payloads ++ []) (r.inputs ++ []) = _
  rw [List.append_nil, List.append_nil]

theorem Trace.tstep_gazePoll (r : Trace) (t : Int) :
    r.step (.gazePoll t) =
      { sys := r.sys.step (.gazePoll t), payloads := r.payloads, inputs := r.inputs } := by
  show Trace.mk _ (r.payloads ++ []) (r.inputs ++ []) = _
  rw [List.append_nil, List.append_nil]

theorem Trace.tstep_gaze (r : Trace) (pred : Option (Int × Int)) (side : String) (t : Int) :
    r.step (.gaze pred side t) =
      { sys := r.sys.step (.gaze pred side t), payloads := r.payloads,
        inputs := r.inputs } := by
  show Trace.mk _ (r.payloads ++ []) (r.inputs ++ []) = _
  rw [List.append_nil, List.append_nil]

theorem Trace.tstep_stop (r : Trace) (env : StopEnv) :
    r.step (.stop env) =
      { sys := r.sys.step (.stop env),
        payloads := r.payloads ++ (stopLogging env r.sys.state).1.toList,
        inputs := r.inputs } := by
  show Trace.mk _ _ (r.inputs ++ []) = _
  rw [List.append_nil]

theorem Trace.tstep_input (r : Trace) (t : Int) (el : Element) :
    r.step (.input t el) =
      { sys := r.sys.step (.input t el), payloads := r.payloads,
        inputs := r.inputs ++
          (if r.sys.listening && r.sys.state.writer.isSome then [t] else []) } := by
  show Trace.mk _ (r.payloads ++ []) _ = _
  rw [List.append_nil]

theorem Trace.tinv_start (r : Trace) (env : StartEnv) (T : Int) (h : r.Inv T)
    (hT : T ≤ env.now) : (r.step (.start env)).Inv env.now := by
  rw [Trace.tstep_start]
  have hw := Sys.inv_step r.sys (.start env) h.sys
  cases hs : r.sys.state.started with
  | true =>
    have e : r.sys.step (.start env) = r.sys := by
      rw [Sys.step_start, if_pos hs]
    rw [e]
    exact Trace.Inv.same r T env.now r.sys h hT h.sys rfl rfl rfl rfl
  | false =>
    have e : r.sys.step (.start env) =
        { r.sys with state := startLogging env r.sys.state,
                     listening := r.sys.listening || env.writer.isSome } := by
      rw [Sys.step_start, if_neg (by rw [hs]; exact Bool.false_ne_true)]
    have hpa : r.sys.state.pauseActive = false := by
      cases hp : r.sys.state.pauseActive with
      | false => rfl
      | true =>
        have := (h.sys.paused_started hp).1
        rw [hs] at this
        exact absurd this Bool.false_ne_true
    rw [e] at hw ⊢
    rw [startLogging_idle env r.sys.state hs] at hw ⊢
    refine ⟨hw, ?_, ?_, ?_, ?_, ?_⟩
    · intro u hu
      exact le_trans (h.inputs_le u hu) hT
    · intro _
      exact ⟨env.now, rfl, le_refl _, fun u hu => le_trans (h.inputs_le u hu) hT⟩
    · intro hp
      have hp1 : r.sys.state.pauseActive = true := hp
      rw [hpa] at hp1
      exact absurd hp1 Bool.false_ne_true
    · intro pl hpl p hp
      exact (h.exported pl hpl p hp).mono T env.now _ _ p hT (fun u hu => Or.inl hu)
    · intro p hp
      exact (h.buffered p hp).mono T env.now _ _ p hT (fun u hu => Or.inl hu)

theorem Trace.tinv_keydown (r : Trace) (key code : String) (t : Int) (el : Element)
    (T : Int) (h : r.Inv T) (hT : T ≤ t) :
    (r.step (.keydown key code t el)).Inv t := by
  rw [Trace.tstep_keydown]
  have hw := Sys.inv_step r.sys (.keydown key code t el) h.sys
  rw [Sys.step_keydown] at hw ⊢
  cases hl : r.sys.listening with
  | false =>
    exact Trace.Inv.same r T t r.sys h hT h.sys rfl rfl rfl rfl
  | true =>
    rw [hl] at hw
    obtain ⟨ks, e⟩ := onKeydown_frame key code t el r.sys.state
    rw [if_pos rfl] at hw ⊢
    rw [e] at hw ⊢
    exact Trace.Inv.same r T t _ h hT hw rfl rfl rfl rfl

theorem Trace.tinv_gazePoll (r : Trace) (t : Int) (T : Int) (h : r.Inv T) (hT : T ≤ t) :
    (r.step (.gazePoll t)).Inv t := by
  rw [Trace.tstep_gazePoll]
  have hw := Sys.inv_step r.sys (.gazePoll t) h.sys
  rw [Sys.step_gazePoll] at hw ⊢
  cases hl : r.sys.state.gazeTimer.isSome with
  | false =>
    exact Trace.Inv.same r T t r.sys h hT h.sys rfl rfl rfl rfl
  | true =>
    rw [hl] at hw
    rw [if_pos rfl] at hw ⊢
    exact Trace.Inv.same r T t _ h hT hw rfl rfl rfl rfl

theorem Trace.tinv_gaze (r : Trace) (pred : Option (Int × Int)) (side : String) (t : Int)
    (T : Int) (h : r.Inv T) (hT : T ≤ t) :
    (r.step (.gaze pred side t)).Inv t := by
  rw [Trace.tstep_gaze]
  have hw := Sys.inv_step r.sys (.gaze pred side t) h.sys
  rw [Sys.step_gaze] at hw ⊢
  by_cases hc : r.sys.pendingGaze > 0
  · obtain ⟨g, gs, sd, lt, e⟩ := gazeSample_frame pred side t r.sys.state
    rw [if_pos hc] at hw ⊢
    rw [e] at hw ⊢
    exact Trace.Inv.same r T t _ h hT hw rfl rfl rfl rfl
  · rw [if_neg hc]
    exact Trace.Inv.same r T t r.sys h hT h.sys rfl rfl rfl rfl

/-- The record that closes a detected pause at a clock reading `t ≥ T` is as
asked. -/
theorem Pause.ok_closing (r : Trace) (T t L : Int) (h : r.Inv T) (hT : T ≤ t)
    (hpa : r.sys.state.pauseActive = true) (hL : r.sys.state.pauseStart = some L)
    (p : Pause) (hp1 : p.startTime = some L) (hp2 : p.endTime = t)
    (hp3 : p.duration = t - L) (inputs2 : List Int)
    (hi : ∀ u ∈ inputs2, u ∈ r.inputs ∨ u = t) : p.Ok t inputs2 := by
  obtain ⟨hst, hps⟩ := h.sys.paused_started hpa
  obtain ⟨L2, hL2, hlong⟩ := h.paused_long hpa
  obtain ⟨L3, hL3, _, hin⟩ := h.last_input hst
  have e2 : L = L2 := by
    rw [hL, hL2] at hps
    exact Option.some.inj hps
  have e3 : L3 = L2 := by
    rw [hL2] at hL3
    exact (Option.some.inj hL3).symm
  subst e2
  subst e3
  refine ⟨by rw [hp2], L3, hp1, by rw [hp3, hp2], ?_, ?_⟩
  · rw [hp3]
    omega
  · intro u hu hc
    rw [hp2] at hc
    rcases hi u hu with hold | hnew
    · have := hin u hold
      omega
    · omega

theorem Trace.tinv_tick (r : Trace) (t : Int) (T : Int) (h : r.Inv T) (hT : T ≤ t) :
    (r.step (.tick t)).Inv t := by
  rw [Trace.tstep_tick]
  have hw := Sys.inv_step r.sys (.tick t) h.sys
  rw [Sys.step_tick] at hw ⊢
  cases hl : r.sys.state.pauseChecker.isSome with
  | false =>
    exact Trace.Inv.same r T t r.sys h hT h.sys rfl rfl rfl rfl
  | true =>
    rw [hl] at hw
    rw [if_pos rfl] at hw ⊢
    rcases pauseTick_cases t r.sys.state with e | ⟨hst, hpa, L, hL, hg, e⟩
    · rw [e] at hw ⊢
      exact Trace.Inv.same r T t r.sys h hT h.sys rfl rfl rfl rfl
    · rw [e] at hw ⊢
      refine ⟨hw, ?_, ?_, ?_, ?_, ?_⟩
      · intro u hu
        exact le_trans (h.inputs_le u hu) hT
      · intro hs
        obtain ⟨L2, a, b, c⟩ := h.last_input hst
        exact ⟨L2, a, le_trans b hT, c⟩
      · intro _
        refine ⟨L, hL, ?_⟩
        omega
      · intro pl hpl p hp
        exact (h.exported pl hpl p hp).mono T t _ _ p hT (fun u hu => Or.inl hu)
      · intro p hp
        exact (h.buffered p hp).mono T t _ _ p hT (fun u hu => Or.inl hu)

theorem Trace.tinv_input (r : Trace) (t : Int) (el : Element) (T : Int) (h : r.Inv T)
    (hT : T ≤ t) : (r.step (.input t el)).Inv t := by
  rw [Trace.tstep_input]
  have hw := Sys.inv_step r.sys (.input t el) h.sys
  rw [Sys.step_input] at hw ⊢
  cases hl : r.sys.listening with
  | false =>
    have e : r.inputs ++ (if (false && r.sys.state.writer.isSome) = true then [t] else [])
        = r.inputs := by simp
    rw [e]
    exact Trace.Inv.same r T t r.sys h hT h.sys rfl rfl rfl rfl
  | true =>
    obtain ⟨hst, hwr⟩ := h.sys.listening_started hl
    have hsome : r.sys.state.writer.isSome = true := by
      cases hx : r.sys.state.writer with
      | none => exact absurd hx hwr
      | some _ => rfl
    have e : r.inputs ++ (if (true && r.sys.state.writer.isSome) = true then [t] else [])
        = r.inputs ++ [t] := by simp [hsome]
    rw [e]
    rw [hl] at hw
    obtain ⟨tc, eq⟩ := onInput_eq t el r.sys.state hwr
    rw [if_pos rfl] at hw ⊢
    rw [eq] at hw ⊢
    have hmem : ∀ u ∈ r.inputs ++ [t], u ∈ r.inputs ∨ u = t := by
      intro u hu
      rw [List.mem_append, List.mem_singleton] at hu
      exact hu
    refine ⟨hw, ?_, ?_, ?_, ?_, ?_⟩
    · intro u hu
      rcases hmem u hu with hold | hnew
      · exact le_trans (h.inputs_le u hold) hT
      · rw [hnew]
    · intro _
      refine ⟨t, rfl, le_refl _, ?_⟩
      intro u hu
      rcases hmem u hu with hold | hnew
      · exact le_trans (h.inputs_le u hold) hT
      · rw [hnew]
    · intro hp
      simp at hp
    · intro pl hpl p hp
      refine (h.exported pl hpl p hp).mono T t _ _ p hT ?_
      intro u hu
      rcases hmem u hu with hold | hnew
      · exact Or.inl hold
      · right; rw [hnew]; exact hT
    · intro p hp
      have hp1 : p ∈ r.sys.state.pauses ++
          (if r.sys.state.pauseActive = true then
            [{ startTime := r.sys.state.pauseStart, endTime := t,
               duration := t - toNumber r.sys.state.pauseStart,
               cursorIndexAtPause := some el.selectionStart }]
          else []) := hp
      rw [List.mem_append] at hp1
      rcases hp1 with hold | hnew
      · refine (h.buffered p hold).mono T t _ _ p hT ?_
        intro u hu
        rcases hmem u hu with hold2 | hnew2
        · exact Or.inl hold2
        · right; rw [hnew2]; exact hT
      · cases hpa : r.sys.state.pauseActive with
        | false =>
          rw [hpa] at hnew
          simp at hnew
        | true =>
          rw [hpa, if_pos rfl, List.mem_singleton] at hnew
          have hne := h.sys.paused_iff.mp hpa
          cases hps : r.sys.state.pauseStart with
          | none => exact absurd hps hne
          | some L =>
            rw [hps] at hnew
            exact Pause.ok_closing r T t L h hT hpa hps p (by rw [hnew]) (by rw [hnew])
              (by rw [hnew]; rfl) _ hmem

theorem Trace.tinv_stop (r : Trace) (env : StopEnv) (T : Int) (h : r.Inv T)
    (hT : T ≤ env.now) : (r.step (.stop env)).Inv env.now := by
  rw [Trace.tstep_stop]
  have hw := Sys.inv_step r.sys (.stop env) h.sys
  rw [Sys.step_stop] at hw ⊢
  cases hs : r.sys.state.started with
  | false =>
    rw [stopLogging_inactive env r.sys.state hs]
    have e : r.payloads ++ (none : Option Payload).toList = r.payloads := by simp
    rw [e]
    exact Trace.Inv.same r T env.now r.sys h hT h.sys rfl rfl rfl rfl
  | true =>
    rw [hs] at hw
    rw [if_pos rfl] at hw ⊢
    rw [stopLogging_payload env r.sys.state hs]
    rw [stopLogging_state env r.sys.state hs] at hw ⊢
    refine ⟨hw, ?_, ?_, ?_, ?_, ?_⟩
    · intro u hu
      exact le_trans (h.inputs_le u hu) hT
    · intro hc
      simp at hc
    · intro hp
      have := (hw.paused_started hp).1
      simp at this
    · intro pl hpl p hp
      have hpl1 : pl ∈ r.payloads ++ [_] := hpl
      rw [List.mem_append, List.mem_singleton] at hpl1
      rcases hpl1 with hold | hnew
      · exact (h.exported pl hold p hp).mono T env.now _ _ p hT (fun u hu => Or.inl hu)
      · rw [hnew] at hp
        have hp1 : p ∈ r.sys.state.pauses ++ closingPause env r.sys.state := hp
        rw [List.mem_append] at hp1
        rcases hp1 with hbuf | hcl
        · exact (h.buffered p hbuf).mono T env.now _ _ p hT (fun u hu => Or.inl hu)
        · unfold closingPause at hcl
          cases hps : r.sys.state.pauseStart with
          | none => rw [hps] at hcl; simp at hcl
          | some L =>
            rw [hps] at hcl
            dsimp only at hcl
            cases hpa : r.sys.state.pauseActive with
            | false => rw [hpa] at hcl; simp at hcl
            | true =>
              rw [hpa, if_pos rfl, List.mem_singleton] at hcl
              exact Pause.ok_closing r T env.now L h hT hpa hps p (by rw [hcl])
                (by rw [hcl]) (by rw [hcl]) _ (fun u hu => Or.inl hu)
    · intro p hp
      simp at hp

/-- Every event at a clock reading `e.time ≥ T` keeps the trace invariant, now
up to `e.time`. -/
theorem Trace.tinv_step (r : Trace) (e : Event) (T : Int) (h : r.Inv T)
    (hT : T ≤ e.time) : (r.step e).Inv e.time := by
  cases e with
  | start env => exact Trace.tinv_start r env T h hT
  | stop env => exact Trace.tinv_stop r env T h hT
  | keydown key code t el => exact Trace.tinv_keydown r key code t el T h hT
  | input t el => exact Trace.tinv_input r t el T h hT
  | tick t => exact Trace.tinv_tick r t T h hT
  | gazePoll t => exact Trace.tinv_gazePoll r t T h hT
  | gaze pred side t => exact Trace.tinv_gaze r pred side t T h hT

theorem Trace.tinv_run (evs : List Event) :
    ∀ (r : Trace) (T : Int), r.Inv T → nonDecreasingFrom T (evs.map Event.time) →
      ∃ T2, (Trace.run evs r).Inv T2 := by
  induction evs with
  | nil =>
    intro r T h _
    exact ⟨T, h⟩
  | cons e es ih =>
    intro r T h hnd
    have hnd1 : T ≤ e.time ∧ nonDecreasingFrom e.time (es.map Event.time) := hnd
    exact ih (r.step e) e.time (Trace.tinv_step r e T h hnd1.1) hnd1.2

theorem Trace.tinv_init (T : Int) : Trace.init.Inv T := by
  refine ⟨Sys.inv_init, ?_, ?_, ?_, ?_, ?_⟩
  · intro u hu; exact absurd hu (List.not_mem_nil u)
  · intro hc; exact absurd hc (by decide)
  · intro hc; exact absurd hc (by decide)
  · intro pl hpl; exact absurd hpl (List.not_mem_nil pl)
  · intro p hp; exact absurd hp (List.not_mem_nil p)

/-- C13. Every logged pause is at least the threshold long: after any sequence
of `startLogging`, `input`, pause-tick and `stopLogging` events (and `keydown`
and gaze events) whose clock readings never go back, every record ever
appended to `pauses`, whether closed by an `input` event or by `stopLogging`,
has a start time, `duration = endTime - startTime ≥ PAUSE_THRESHOLD_MS` (2000),
and no recorded `input` event strictly between its `startTime` and its
`endTime`. -/
theorem pauses_at_least_threshold (evs : List Event)
    (h : nonDecreasing (evs.map Event.time)) :
    PAUSE_THRESHOLD_MS = 2000 ∧
    ∀ p ∈ (Trace.run evs Trace.init).pausesLogged,
      ∃ st, p.startTime = some st ∧ p.duration = p.endTime - st ∧
        p.duration ≥ PAUSE_THRESHOLD_MS ∧
        ∀ u ∈ (Trace.run evs Trace.init).inputs, ¬ (st < u ∧ u < p.endTime) := by
  refine ⟨rfl, ?_⟩
  have key : ∃ T2, (Trace.run evs Trace.init).Inv T2 := by
    cases evs with
    | nil => exact ⟨0, Trace.tinv_init 0⟩
    | cons e es =>
      have hnd : nonDecreasingFrom e.time (es.map Event.time) := h
      exact Trace.tinv_run (e :: es) Trace.init e.time (Trace.tinv_init e.time)
        ⟨le_refl _, hnd⟩
  obtain ⟨T2, inv⟩ := key
  intro p hp
  unfold Trace.pausesLogged at hp
  rw [List.mem_append] at hp
  rcases hp with hp | hp
  · rw [List.mem_flatten] at hp
    obtain ⟨l, hl, hpl⟩ := hp
    rw [List.mem_map] at hl
    obtain ⟨pl, hpl1, hpl2⟩ := hl
    rw [← hpl2] at hpl
    exact (inv.exported pl hpl1 p hpl).2
  · exact (inv.buffered p hp).2

/-- C13 on the session `sessionEvents`: its one pause runs from the input at
200 to the stop at 3000. -/
theorem pauses_at_least_threshold_witness :
    nonDecreasing (sessionEvents.map Event.time) ∧
    (Trace.run sessionEvents Trace.init).pausesLogged =
      [{ startTime := some 200, endTime := 3000, duration := 2800,
         cursorIndexAtPause := some 0 }] ∧
    ∀ p ∈ (Trace.run sessionEvents Trace.init).pausesLogged,
      ∃ st, p.startTime = some st ∧ p.duration = p.endTime - st ∧
        p.duration ≥ PAUSE_THRESHOLD_MS ∧
        ∀ u ∈ (Trace.run sessionEvents Trace.init).inputs, ¬ (st < u ∧ u < p.endTime) :=
  have hnd : nonDecreasing (sessionEvents.map Event.time) :=
    ⟨by decide, by decide, by decide, by decide, by decide, by decide, by decide,
      by decide, trivial⟩
  ⟨hnd, by decide, (pauses_at_least_threshold sessionEvents hnd).2⟩

/-! ## C7: pause closing on activity -/

/-- Without a writer `onInput` returns at line 91 and changes nothing. -/
theorem onInput_without_writer (t : Int) (el : Element) (s : State)
    (h : s.writer = none) : onInput t el s = s := by
  unfold onInput
  rw [h]

/-- Without a writer `onKeydown` returns at line 77 and changes nothing. -/
theorem onKeydown_without_writer (key code : String) (t : Int) (el : Element) (s : State)
    (h : s.writer = none) : onKeydown key code t el s = s := by
  unfold onKeydown
  rw [h]

/-- C7. Pause closing on activity: in every state in which an `input` event is
delivered (a reachable state with the listeners registered) and for every such
event at clock reading `t`, the event runs `onInput`, which appends exactly the
one record `{startTime: pauseStart, endTime: t, duration: t - pauseStart}` to
`pauses` when the tracker is paused and appends nothing to `pauses` when it is
active; in both cases afterwards `pauseActive = false`, `pauseStart = null`
and `lastInputTime = t`. Activity at 0, a tick at 2000 and activity at 2500
leave `pauses` holding exactly `{startTime: 0, endTime: 2500, duration: 2500}`. -/
theorem onInput_closes_pause (w : Sys) (t : Int) (el : Element)
    (hr : w.Reachable) (hl : w.listening = true) :
    (w.step (.input t el)).state = onInput t el w.state ∧
    (w.state.pauseActive = true →
      ∃ L, w.state.pauseStart = some L ∧
        (onInput t el w.state).pauses =
          w.state.pauses ++ [{ startTime := some L, endTime := t, duration := t - L,
                               cursorIndexAtPause := some el.selectionStart }]) ∧
    (w.state.pauseActive = false → (onInput t el w.state).pauses = w.state.pauses) ∧
    (onInput t el w.state).pauseActive = false ∧
    (onInput t el w.state).pauseStart = none ∧
    (onInput t el w.state).lastInputTime = some t ∧
    (Sys.run pauseEvents Sys.init).state.pauses =
      [{ startTime := some 0, endTime := 2500, duration := 2500,
         cursorIndexAtPause := some 0 }] := by
  obtain ⟨evs, hw⟩ := hr
  have inv : w.Inv := by
    rw [hw]
    exact Sys.inv_run evs Sys.init Sys.inv_init
  have hwr := (inv.listening_started hl).2
  obtain ⟨h1, h2, h3, h4, _⟩ := onInput_tracker w.state t el hwr
  have hstep : (w.step (.input t el)).state = onInput t el w.state := by
    rw [Sys.step_input, if_pos hl]
  refine ⟨hstep, ?_, ?_, h2, ?_, h4, by decide⟩
  · intro hp
    have hne := inv.paused_iff.mp hp
    cases hps : w.state.pauseStart with
    | none => exact absurd hps hne
    | some L =>
      refine ⟨L, rfl, ?_⟩
      rw [h1, hp, hps]
      rfl
  · intro hp
    rw [h1, hp]
    rfl
  · rw [h3]
    cases hp : w.state.pauseActive with
    | true => rfl
    | false =>
      have : ¬ w.state.pauseStart ≠ none := fun hne => by
        have := inv.paused_iff.mpr hne
        rw [hp] at this
        exact absurd this Bool.false_ne_true
      simp only [Bool.false_eq_true, if_false]
      exact not_not.mp this

/-- C7 at the state reached by activity at 0 and a tick at 2000, and an `input`
event at 2500. -/
theorem onInput_closes_pause_witness :
    (Sys.run (pauseEvents.take 3) Sys.init).listening = true ∧
    (Sys.run (pauseEvents.take 3) Sys.init).state.pauseActive = true ∧
    (onInput 2500 emptyWriter (Sys.run (pauseEvents.take 3) Sys.init).state).pauseActive
      = false ∧
    (onInput 2500 emptyWriter (Sys.run (pauseEvents.take 3) Sys.init).state).pauseStart
      = none ∧
    (onInput 2500 emptyWriter (Sys.run (pauseEvents.take 3) Sys.init).state).lastInputTime
      = some 2500 :=
  have h := onInput_closes_pause (Sys.run (pauseEvents.take 3) Sys.init) 2500 emptyWriter
    ⟨pauseEvents.take 3, rfl⟩ (by decide)
  ⟨by decide, by decide, h.2.2.2.1, h.2.2.2.2.1, h.2.2.2.2.2.1⟩

/-! ## C16: pause finalization at stop -/

/-- C16. Pause finalization at stop: in every reachable state with
`started = true`, `stopLogging` at clock reading `t` appends the record
`{startTime: pauseStart, endTime: t, duration: t - pauseStart}` to the returned
`pauses` exactly when the tracker is paused, and appends no pause when it is
active (even if `t - lastInputTime ≥ 2000` and no tick has seen the gap yet: a
session with its last input at 0, stopped at 3000, returns no pause);
afterwards `pauseActive = false` and `pauseStart = null`. -/
theorem stopLogging_closes_pause (w : Sys) (env : StopEnv)
    (hr : w.Reachable) (h : w.state.started = true) :
    (w.step (.stop env)).state = (stopLogging env w.state).2 ∧
    (∃ payload, (stopLogging env w.state).1 = some payload ∧
      (w.state.pauseActive = true →
        ∃ L, w.state.pauseStart = some L ∧
          payload.pauses = w.state.pauses ++
            [{ startTime := some L, endTime := env.now, duration := env.now - L,
               cursorIndexAtPause := w.state.writer.map (fun _ => env.selectionStart) }]) ∧
      (w.state.pauseActive = false → payload.pauses = w.state.pauses)) ∧
    (stopLogging env w.state).2.pauseActive = false ∧
    (stopLogging env w.state).2.pauseStart = none ∧
    ((Sys.run (pauseEvents.take 2) Sys.init).state.started = true ∧
      (Sys.run (pauseEvents.take 2) Sys.init).state.pauseActive = false ∧
      (Sys.run (pauseEvents.take 2) Sys.init).state.lastInputTime = some 0 ∧
      ∃ payload,
        (stopLogging stopEnv3000 (Sys.run (pauseEvents.take 2) Sys.init).state).1
          = some payload ∧ payload.pauses = []) := by
  obtain ⟨evs, hw⟩ := hr
  have inv : w.Inv := by
    rw [hw]
    exact Sys.inv_run evs Sys.init Sys.inv_init
  have hstep : (w.step (.stop env)).state = (stopLogging env w.state).2 := by
    rw [Sys.step_stop, if_pos h]
  refine ⟨hstep, ⟨_, stopLogging_payload env w.state h, ?_, ?_⟩, ?_, ?_,
    by decide, by decide, by decide, ⟨_, rfl, by decide⟩⟩
  · intro hp
    have hne := inv.paused_iff.mp hp
    cases hps : w.state.pauseStart with
    | none => exact absurd hps hne
    | some L =>
      refine ⟨L, rfl, ?_⟩
      show w.state.pauses ++ closingPause env w.state = _
      rw [closingPause_paused env w.state L hp hps]
  · intro hp
    show w.state.pauses ++ closingPause env w.state = _
    rw [closingPause_none env w.state (Or.inl hp), List.append_nil]
  · rw [stopLogging_state env w.state h]
    cases hp : w.state.pauseActive with
    | false => rfl
    | true =>
      have hne := inv.paused_iff.mp hp
      cases hps : w.state.pauseStart with
      | none => exact absurd hps hne
      | some L => rfl
  · rw [stopLogging_state env w.state h]
    cases hp : w.state.pauseActive with
    | true => rfl
    | false =>
      have : ¬ w.state.pauseStart ≠ none := fun hne => by
        have := inv.paused_iff.mpr hne
        rw [hp] at this
        exact absurd this Bool.false_ne_true
      simp only [Bool.false_eq_true, if_false]
      exact not_not.mp this

/-- C16 at the paused session reached by activity at 0 and a tick at 2000,
stopped at 3000. -/
theorem stopLogging_closes_pause_witness :
    (Sys.run (pauseEvents.take 3) Sys.init).state.started = true ∧
    (Sys.run (pauseEvents.take 3) Sys.init).state.pauseActive = true ∧
    (∃ payload,
      (stopLogging stopEnv3000 (Sys.run (pauseEvents.take 3) Sys.init).state).1
        = some payload ∧
      payload.pauses = [{ startTime := some 0, endTime := 3000, duration := 3000,
                          cursorIndexAtPause := some 0 }]) ∧
    (stopLogging stopEnv3000 (Sys.run (pauseEvents.take 3) Sys.init).state).2.pauseActive
      = false ∧
    (stopLogging stopEnv3000 (Sys.run (pauseEvents.take 3) Sys.init).state).2.pauseStart
      = none :=
  have h := stopLogging_closes_pause (Sys.run (pauseEvents.take 3) Sys.init) stopEnv3000
    ⟨pauseEvents.take 3, rfl⟩ (by decide)
  ⟨by decide, by decide, ⟨_, rfl, by decide⟩, h.2.2.1, h.2.2.2.1⟩

/-! ## C11: what startLogging finds between sessions -/

/-- The part of the initialisation that holds in every reachable state with no
session active: `startLogging` at clock reading `t` yields `started = true`,
`startTime = t`, `lastInputTime = t`, empty `keystrokes`, `textchanges` and
`pauses`, and an active pause tracker. -/
theorem startLogging_input_side (w : Sys) (env : StartEnv)
    (hr : w.Reachable) (h : w.state.started = false) :
    (startLogging env w.state).started = true ∧
    (startLogging env w.state).startTime = some env.now ∧
    (startLogging env w.state).lastInputTime = some env.now ∧
    (startLogging env w.state).keystrokes = [] ∧
    (startLogging env w.state).textchanges = [] ∧
    (startLogging env w.state).pauses = [] ∧
    (startLogging env w.state).pauseActive = false ∧
    (startLogging env w.state).pauseStart = none := by
  obtain ⟨evs, hw⟩ := hr
  have inv : w.Inv := by
    rw [hw]
    exact Sys.inv_run evs Sys.init Sys.inv_init
  obtain ⟨k1, k2, k3, _⟩ := inv.idle_empty h
  have hpa : w.state.pauseActive = false := by
    cases hp : w.state.pauseActive with
    | false => rfl
    | true =>
      have := (inv.paused_started hp).1
      rw [h] at this
      exact absurd this Bool.false_ne_true
  have hps : w.state.pauseStart = none := by
    by_contra hne
    have := inv.paused_iff.mpr hne
    rw [hpa] at this
    exact absurd this Bool.false_ne_true
  rw [startLogging_idle env w.state h]
  exact ⟨rfl, rfl, rfl, k1, k2, k3, hpa, hps⟩

/-- C11, as the code breaks it. A session with WebGazer is started at 0; the
gaze interval fires at 100 and its callback waits for the prediction;
`stopLogging` at 200 clears the interval and empties the buffers; the
prediction `(10, 10)` arrives at 250 and the callback goes on (lines 189-195,
which test neither `state.started` nor `state.gazeTimer`): with no session
active, `gaze` holds one sample and the dwell segmenter has the open segment
`(left, 250)`. `startLogging` at 1000 then yields a started session whose
`gaze` is `[{250, 10, 10, left}]` and whose `gaze_states` is
`[{left, 250, 1000, 750}]`, not empty buffers. -/
theorem startLogging_stale_gaze :
    (Sys.run (staleGazeEvents.take 3) Sys.init).state.started = false ∧
    (Sys.run (staleGazeEvents.take 3) Sys.init).state.gaze = [] ∧
    (Sys.run (staleGazeEvents.take 3) Sys.init).state.gazeTimer = none ∧
    (Sys.run (staleGazeEvents.take 3) Sys.init).pendingGaze = 1 ∧
    (Sys.run staleGazeEvents Sys.init).state.started = false ∧
    (Sys.run staleGazeEvents Sys.init).state.gaze =
      [{ time := 250, x := 10, y := 10, side := "left" }] ∧
    (Sys.run staleGazeEvents Sys.init).state.lastGazeSide = "left" ∧
    (Sys.run staleGazeEvents Sys.init).state.lastGazeTime = some 250 ∧
    (Sys.run (staleGazeEvents ++ [.start startEnv1000]) Sys.init).state =
      startLogging startEnv1000 (Sys.run staleGazeEvents Sys.init).state ∧
    (startLogging startEnv1000 (Sys.run staleGazeEvents Sys.init).state).started = true ∧
    (startLogging startEnv1000 (Sys.run staleGazeEvents Sys.init).state).gaze =
      [{ time := 250, x := 10, y := 10, side := "left" }] ∧
    (startLogging startEnv1000 (Sys.run staleGazeEvents Sys.init).state).gaze_states =
      [{ side := "left", startTime := 250, endTime := 1000, duration := 750 }] := by
  refine ⟨by decide, by decide, by decide, by decide, by decide, by decide, by decide,
    by decide, by decide, by decide, by decide, by decide⟩

end ETL
